import Mathlib

/-!
Verification development for the cakelisp evaluator core (src/src/Evaluator.cpp).

The C++ data model and the evaluator operations are shallowly embedded as
executable Lean definitions.  External collaborators that are declared in
headers outside the repository snapshot (the token model helpers, the
generator helpers, the compile-time macro/generator entry points and the
built-in FunctionInvocationGenerator) are modelled from the spec, as noted
on each such definition.  C++ `std::unordered_map` tables are modelled as
association lists; iteration order, unspecified for the C++ container, is
the list order here.  Heap pointers to splice outputs are modelled as
numeric identifiers into a store owned by the environment.
-/

namespace Cakelisp

/-- Token kinds, from Tokenizer.hpp usage in Evaluator.cpp (spec section 3). -/
inductive TokenType where
  | TokenType_OpenParen
  | TokenType_CloseParen
  | TokenType_Symbol
  | TokenType_String
deriving DecidableEq, Repr

/-- A lexeme with its textual contents.  Source file/line fields carry no
behavioral weight in the evaluator core and are omitted. -/
structure Token where
  type : TokenType
  contents : String
deriving DecidableEq, Repr

/-- Formatting modifiers used by the evaluator core (GeneratorHelpers.hpp). -/
inductive StringOutMod where
  | StringOutMod_None
  | StringOutMod_ConvertVariableName
  | StringOutMod_SurroundWithQuotes
  | StringOutMod_OpenParen
  | StringOutMod_CloseParen
  | StringOutMod_Splice
deriving DecidableEq, Repr

/-- One output fragment.  For splice fragments, `spliceOutput` is the
identifier of the child output buffer owned by the environment store. -/
structure StringOutput where
  contents : String := ""
  modifier : StringOutMod := StringOutMod.StringOutMod_None
  startToken : Option Token := none
  spliceOutput : Option Nat := none
deriving DecidableEq, Repr

/-- A per-definition output buffer: source and header fragment streams,
plus the auxiliary lists cleared by resetGeneratorOutput. -/
structure GeneratorOutput where
  source : List StringOutput := []
  header : List StringOutput := []
  functions : List String := []
  imports : List String := []
deriving DecidableEq, Repr

/-- Evaluator scopes (spec section 3, EvaluatorContext). -/
inductive EvaluatorScope where
  | EvaluatorScope_Module
  | EvaluatorScope_Body
  | EvaluatorScope_ExpressionsOnly
deriving DecidableEq, Repr

/-- Modelled from the spec: the module-environment handle only matters to the
evaluator core through findModuleStateVariable, so it is the set of module
state-variable names. -/
structure ModuleEnvironment where
  stateVariables : List String := []
deriving DecidableEq, Repr

/-- The evaluation context, passed by value (spec section 3). -/
structure EvaluatorContext where
  scope : EvaluatorScope
  definitionName : Option String := none
  moduleEnvironment : Option ModuleEnvironment := none
deriving DecidableEq, Repr

/-- Reference guess states, from Evaluator.hpp usage (spec section 3). -/
inductive GuessState where
  | GuessState_None
  | GuessState_Guessed
  | GuessState_Resolved
  | GuessState_WaitingForLoad
deriving DecidableEq, Repr

/-- Definition kinds. -/
inductive ObjectType where
  | ObjectType_Function
  | ObjectType_CompileTimeMacro
  | ObjectType_CompileTimeGenerator
deriving DecidableEq, Repr

/-- One textual call site awaiting resolution.  The C++ record points at the
token array and owns a splice GeneratorOutput on the heap; here the token
list is stored by value and the splice output by identifier. -/
structure ObjectReference where
  tokens : List Token := []
  startIndex : Nat := 0
  context : EvaluatorContext
  spliceOutput : Nat := 0
  isResolved : Bool := false
deriving DecidableEq, Repr

/-- All sites within one definition that mention one referenced name. -/
structure ObjectReferenceStatus where
  name : String
  guessState : GuessState := GuessState.GuessState_None
  references : List ObjectReference := []
deriving DecidableEq, Repr

/-- A definition of a function, compile-time macro or compile-time generator. -/
structure ObjectDefinition where
  name : String
  type : ObjectType
  isRequired : Bool := false
  isLoaded : Bool := false
  references : List (String × ObjectReferenceStatus) := []
  output : GeneratorOutput := {}
deriving DecidableEq, Repr

/-- The denormalized symbol-name to call-sites index. -/
structure ObjectReferencePool where
  references : List ObjectReference := []
deriving DecidableEq, Repr

/-- The process-scoped registry (spec section 3).  The macro and generator
tables hold installed names; the behavior behind an installed name comes
from the ExternalCode oracle below, standing for the loaded function
pointer. -/
structure EvaluatorEnvironment where
  definitions : List (String × ObjectDefinition) := []
  referencePools : List (String × ObjectReferencePool) := []
  macros : List String := []
  generators : List String := []
  macroExpansions : List (List Token) := []
  nextFreeBuildId : Nat := 0
  nextSpliceId : Nat := 0
  spliceOutputs : List (Nat × GeneratorOutput) := []
  enableHotReloading : Bool := false
deriving DecidableEq, Repr

def globalDefinitionName : String := "<global>"

--
-- Association-list lookups (std::unordered_map::find)
--

/-- First-match association-list lookup, the model of unordered_map::find. -/
def findAssoc {α : Type} : List (String × α) → String → Option α
  | [], _ => none
  | p :: rest, n => if p.1 = n then some p.2 else findAssoc rest n

def findDef (defs : List (String × ObjectDefinition)) (n : String) :
    Option ObjectDefinition := findAssoc defs n

def findStatus (statuses : List (String × ObjectReferenceStatus)) (n : String) :
    Option ObjectReferenceStatus := findAssoc statuses n

def findPool (pools : List (String × ObjectReferencePool)) (n : String) :
    Option ObjectReferencePool := findAssoc pools n

/-- The guess status recorded for referenced name `rn` inside definition `dn`. -/
def statusOf (env : EvaluatorEnvironment) (dn rn : String) : Option ObjectReferenceStatus :=
  (findDef env.definitions dn).bind fun d => findStatus d.references rn

/-- findMacro returns whether a macro function pointer is installed for the name. -/
def findMacro (env : EvaluatorEnvironment) (functionName : String) : Bool :=
  env.macros.contains functionName

/-- findGenerator returns whether a generator function pointer is installed. -/
def findGenerator (env : EvaluatorEnvironment) (functionName : String) : Bool :=
  env.generators.contains functionName

def isCompileTimeObject (type : ObjectType) : Bool :=
  type = ObjectType.ObjectType_CompileTimeMacro ∨
    type = ObjectType.ObjectType_CompileTimeGenerator

def isCompileTimeCodeLoaded (env : EvaluatorEnvironment) (definition : ObjectDefinition) : Bool :=
  if definition.type = ObjectType.ObjectType_CompileTimeMacro then
    findMacro env definition.name
  else
    findGenerator env definition.name

/-- Append one reference occurrence to the status stored for `rn` inside the
definition entry keyed `dn` (the status must already exist). -/
def appendRefToStatus (defs : List (String × ObjectDefinition)) (dn rn : String)
    (reference : ObjectReference) : List (String × ObjectDefinition) :=
  defs.map fun p =>
    if p.1 = dn then
      (p.1, { p.2 with references := p.2.references.map fun q =>
        if q.1 = rn then (q.1, { q.2 with references := q.2.references ++ [reference] })
        else q })
    else p

/-- Insert a brand-new status (None, one occurrence) for `rn` inside `dn`. -/
def insertNewStatus (defs : List (String × ObjectDefinition)) (dn rn : String)
    (reference : ObjectReference) : List (String × ObjectDefinition) :=
  defs.map fun p =>
    if p.1 = dn then
      (p.1, { p.2 with references := p.2.references ++
        [(rn, { name := rn, guessState := GuessState.GuessState_None,
                references := [reference] })] })
    else p

/-- The name of the definition a reference is attributed to:
the context's enclosing definition, or the module root. -/
def referenceDefinitionName (reference : ObjectReference) : String :=
  match reference.context.definitionName with
  | some n => n
  | none => globalDefinitionName

/-- Add the reference to the reference pool map (unconditional in the C++ code). -/
def addToPool (pools : List (String × ObjectReferencePool)) (rn : String)
    (reference : ObjectReference) : List (String × ObjectReferencePool) :=
  match findPool pools rn with
  | none => pools ++ [(rn, { references := [reference] })]
  | some _ => pools.map fun p =>
      if p.1 = rn then (p.1, { p.2 with references := p.2.references ++ [reference] })
      else p

/-- The definitions-map half of addObjectReference. -/
def addObjectReferenceDefs (env : EvaluatorEnvironment) (definitionName referenceName : String)
    (reference : ObjectReference) : List (String × ObjectDefinition) :=
  match findDef env.definitions definitionName with
  | none => env.definitions
  | some d =>
    match findStatus d.references referenceName with
    | none => insertNewStatus env.definitions definitionName referenceName reference
    | some _ => appendRefToStatus env.definitions definitionName referenceName reference

/-- The status pointer addObjectReference returns (null when the enclosing
definition is missing). -/
def addObjectReferenceStatus (env : EvaluatorEnvironment)
    (definitionName referenceName : String) (reference : ObjectReference) :
    Option ObjectReferenceStatus :=
  match findDef env.definitions definitionName with
  | none => none
  | some d =>
    match findStatus d.references referenceName with
    | none =>
      some { name := referenceName, guessState := GuessState.GuessState_None,
             references := [reference] }
    | some st => some { st with references := st.references ++ [reference] }

/-- Evaluator.cpp addObjectReference.  Records the reference in the enclosing
definition's ReferenceStatus map (creating a None status on first sight) and
appends it to the global reference pool.  When the enclosing definition does
not exist the C++ code prints an internal error and returns null — but still
adds the reference to the pool; the returned option mirrors the returned
pointer. -/
def addObjectReference (env : EvaluatorEnvironment) (referenceName : String)
    (reference : ObjectReference) :
    EvaluatorEnvironment × Option ObjectReferenceStatus :=
  ({ env with
      definitions :=
        addObjectReferenceDefs env (referenceDefinitionName reference) referenceName
          reference,
      referencePools := addToPool env.referencePools referenceName reference },
   addObjectReferenceStatus env (referenceDefinitionName reference) referenceName
     reference)

--
-- External collaborators
--

/-- Modelled from the spec: the compile-time entry points and the built-in
FunctionInvocationGenerator live outside src/ (Generators.cpp and loaded
shared libraries).  Spec section 6 gives the entry-point signatures and
section 5 the shared-resource contract: a macro writes only to its output
token vector, a generator only to the output buffer passed to it.  The
function-invocation generator may in addition synthesize new object
references while evaluating argument expressions (spec 4.2 item 4, 4.4);
those are returned and recorded through addObjectReference. -/
structure ExternalCode where
  macroImpl : String → EvaluatorEnvironment → EvaluatorContext → List Token → Nat →
    Bool × List Token
  generatorImpl : String → EvaluatorEnvironment → EvaluatorContext → List Token → Nat →
    Bool × GeneratorOutput
  figImpl : EvaluatorEnvironment → EvaluatorContext → List Token → Nat →
    Bool × List (String × ObjectReference) × GeneratorOutput

def appendOutput (a b : GeneratorOutput) : GeneratorOutput :=
  { source := a.source ++ b.source, header := a.header ++ b.header,
    functions := a.functions ++ b.functions, imports := a.imports ++ b.imports }

def applyNewReferences (env : EvaluatorEnvironment)
    (refs : List (String × ObjectReference)) : EvaluatorEnvironment :=
  refs.foldl (fun e p => (addObjectReference e p.1 p.2).1) env

def appendToSpliceStore (env : EvaluatorEnvironment) (id : Nat)
    (delta : GeneratorOutput) : EvaluatorEnvironment :=
  { env with spliceOutputs := env.spliceOutputs.map fun p =>
      if p.1 = id then (p.1, appendOutput p.2 delta) else p }

/-- Run FunctionInvocationGenerator with a reference's captured site, writing
into that reference's splice output. -/
def runFigIntoSplice (code : ExternalCode) (env : EvaluatorEnvironment)
    (reference : ObjectReference) : Bool × EvaluatorEnvironment :=
  let r := code.figImpl env reference.context reference.tokens reference.startIndex
  (r.1, appendToSpliceStore (applyNewReferences env r.2.1) reference.spliceOutput r.2.2)

--
-- Tokenizer / GeneratorHelpers collaborators
--

/-- Modelled from the spec: Tokenizer.cpp's validateParentheses (not in src).
Parentheses are balanced: the depth counter never goes negative and ends at
zero (spec 4.1, 4.2 item 1). -/
def validateParenthesesAux : List Token → Nat → Bool
  | [], depth => depth = 0
  | t :: rest, depth =>
    match t.type with
    | TokenType.TokenType_OpenParen => validateParenthesesAux rest (depth + 1)
    | TokenType.TokenType_CloseParen =>
      if depth = 0 then false else validateParenthesesAux rest (depth - 1)
    | _ => validateParenthesesAux rest depth

def validateParentheses (tokens : List Token) : Bool :=
  validateParenthesesAux tokens 0

/-- Modelled from the spec: GeneratorHelpers' FindCloseParenTokenIndex (not in
src).  Index of the close paren matching the open paren at the start index,
found with a depth counter; on input that validateParentheses would reject it
runs off the end and yields the token count. -/
def findCloseParenAux : List Token → Nat → Nat → Nat
  | [], idx, _ => idx
  | t :: rest, idx, depth =>
    match t.type with
    | TokenType.TokenType_OpenParen => findCloseParenAux rest (idx + 1) (depth + 1)
    | TokenType.TokenType_CloseParen =>
      if depth ≤ 1 then idx else findCloseParenAux rest (idx + 1) (depth - 1)
    | _ => findCloseParenAux rest (idx + 1) depth

def FindCloseParenTokenIndex (tokens : List Token) (startTokenIndex : Nat) : Nat :=
  findCloseParenAux (tokens.drop (startTokenIndex + 1)) (startTokenIndex + 1) 1

/-- Modelled from the spec: GeneratorHelpers' addStringOutput appends one
fragment to an output stream. -/
def addStringOutputSource (output : GeneratorOutput) (contents : String)
    (modifier : StringOutMod) (startToken : Token) : GeneratorOutput :=
  { output with source := output.source ++
      [{ contents := contents, modifier := modifier, startToken := some startToken }] }

/-- Modelled from the spec: GeneratorHelpers' addLangTokenOutput. -/
def addLangTokenOutputSource (output : GeneratorOutput) (modifier : StringOutMod)
    (startToken : Token) : GeneratorOutput :=
  { output with source := output.source ++
      [{ modifier := modifier, startToken := some startToken }] }

/-- Modelled from the spec: GeneratorHelpers' addSpliceOutput pushes a
splice-sentinel fragment pointing at the child output buffer (spec section 3,
Output fragment). -/
def addSpliceOutputSource (output : GeneratorOutput) (spliceId : Nat)
    (startToken : Token) : GeneratorOutput :=
  { output with source := output.source ++
      [{ modifier := StringOutMod.StringOutMod_Splice, startToken := some startToken,
         spliceOutput := some spliceId }] }

def findModuleStateVariable (moduleEnvironment : ModuleEnvironment)
    (stateVariableName : String) : Bool :=
  moduleEnvironment.stateVariables.contains stateVariableName

/-- The symbol case of EvaluateGenerate_Recursive (Evaluator.cpp lines
367-403): literals verbatim, state variables dereferenced under hot
reloading, other symbols with the ConvertVariableName modifier. -/
def evaluateSymbolOutput (env : EvaluatorEnvironment) (context : EvaluatorContext)
    (token : Token) (output : GeneratorOutput) : GeneratorOutput :=
  let cs := token.contents.toList
  let firstChar := cs.headD (Char.ofNat 0)
  let secondChar := cs.getD 1 (Char.ofNat 0)
  -- Char 39 is the quote, 45 the minus sign, 46 the dot
  if firstChar = Char.ofNat 39 ∨ firstChar.isDigit ∨
      (firstChar = Char.ofNat 45 ∧ (secondChar = Char.ofNat 46 ∨ secondChar.isDigit)) then
    addStringOutputSource output token.contents StringOutMod.StringOutMod_None token
  else
    match context.moduleEnvironment with
    | some moduleEnvironment =>
      if env.enableHotReloading ∧ findModuleStateVariable moduleEnvironment token.contents then
        let o1 := addLangTokenOutputSource output StringOutMod.StringOutMod_OpenParen token
        let o2 := addStringOutputSource o1 "*" StringOutMod.StringOutMod_None token
        let o3 := addStringOutputSource o2 token.contents
          StringOutMod.StringOutMod_ConvertVariableName token
        addLangTokenOutputSource o3 StringOutMod.StringOutMod_CloseParen token
      else
        addStringOutputSource output token.contents
          StringOutMod.StringOutMod_ConvertVariableName token
    | none =>
      addStringOutputSource output token.contents
        StringOutMod.StringOutMod_ConvertVariableName token

--
-- The recursive evaluator (Evaluator.cpp lines 182-462)
--

/-- The environment after allocating a fresh splice output (lines 292-298). -/
def spliceAllocEnv (env : EvaluatorEnvironment) : EvaluatorEnvironment :=
  { env with nextSpliceId := env.nextSpliceId + 1,
             spliceOutputs := env.spliceOutputs ++ [(env.nextSpliceId, {})] }

/-- The ObjectReference recorded for an unknown invocation (lines 288-293). -/
def unknownNewReference (env : EvaluatorEnvironment) (context : EvaluatorContext)
    (tokens : List Token) (invocationStartIndex : Nat) : ObjectReference :=
  { tokens := tokens, startIndex := invocationStartIndex, context := context,
    spliceOutput := env.nextSpliceId, isResolved := false }

/-- Lines 314-330: when the status was already Guessed, guess this new site
at once; otherwise report success and let BuildEvaluateReferences decide. -/
def handleUnknownReferenceResolved (code : ExternalCode) (env1 : EvaluatorEnvironment)
    (reference : ObjectReference) (output1 : GeneratorOutput)
    (referenceStatus : ObjectReferenceStatus) :
    Bool × EvaluatorEnvironment × GeneratorOutput :=
  if referenceStatus.guessState = GuessState.GuessState_Guessed then
    if (runFigIntoSplice code env1 reference).1 = false then
      (false, (runFigIntoSplice code env1 reference).2, output1)
    else (true, (runFigIntoSplice code env1 reference).2, output1)
  else (true, env1, output1)

/-- The unknown-reference arm of HandleInvocation_Recursive (lines 283-330):
allocate a splice output, install the sentinel, record the reference, and if
the status was already Guessed re-run the function-invocation guess for the
new site. -/
def handleUnknownReference (code : ExternalCode) (env : EvaluatorEnvironment)
    (context : EvaluatorContext) (tokens : List Token) (invocationStartIndex : Nat)
    (output : GeneratorOutput) (invocationStart invocationName : Token) :
    Bool × EvaluatorEnvironment × GeneratorOutput :=
  match (addObjectReference (spliceAllocEnv env) invocationName.contents
      (unknownNewReference env context tokens invocationStartIndex)).2 with
  | none =>
    (false,
     (addObjectReference (spliceAllocEnv env) invocationName.contents
       (unknownNewReference env context tokens invocationStartIndex)).1,
     addSpliceOutputSource output env.nextSpliceId invocationStart)
  | some referenceStatus =>
    handleUnknownReferenceResolved code
      (addObjectReference (spliceAllocEnv env) invocationName.contents
        (unknownNewReference env context tokens invocationStartIndex)).1
      (unknownNewReference env context tokens invocationStartIndex)
      (addSpliceOutputSource output env.nextSpliceId invocationStart)
      referenceStatus

mutual

/-- Evaluator.cpp HandleInvocation_Recursive: dispatch an open-paren
invocation to a macro, a generator, a known cakelisp function, or record an
unresolved reference.  Fuel bounds the macro-expansion recursion, which the
C++ code does not bound. -/
def HandleInvocation_Recursive (code : ExternalCode) :
    Nat → EvaluatorEnvironment → EvaluatorContext → List Token → Nat → GeneratorOutput →
    Bool × EvaluatorEnvironment × GeneratorOutput
  | 0, env, _, _, _, output => (false, env, output)
  | fuel + 1, env, context, tokens, invocationStartIndex, output =>
    match tokens[invocationStartIndex]?, tokens[invocationStartIndex + 1]? with
    | some invocationStart, some invocationName =>
      if invocationName.type ≠ TokenType.TokenType_Symbol then (false, env, output)
      else if findMacro env invocationName.contents then
        let r := code.macroImpl invocationName.contents env context tokens invocationStartIndex
        let macroSucceeded := r.1
        let macroOutputTokens := r.2
        if macroSucceeded = false then (false, env, output)
        else if macroOutputTokens.isEmpty then (true, env, output)
        else if validateParentheses macroOutputTokens = false then (false, env, output)
        else
          let env1 := { env with macroExpansions := env.macroExpansions ++ [macroOutputTokens] }
          let r2 := EvaluateGenerateAllLoop code fuel env1 context macroOutputTokens 0 0
            none output
          (r2.1 == 0, r2.2.1, r2.2.2)
      else if findGenerator env invocationName.contents then
        let r := code.generatorImpl invocationName.contents env context tokens invocationStartIndex
        (r.1, env, appendOutput output r.2)
      else
        match findDef env.definitions invocationName.contents with
        | some d =>
          if isCompileTimeObject d.type = false then
            let r := code.figImpl env context tokens invocationStartIndex
            (r.1, applyNewReferences env r.2.1, appendOutput output r.2.2)
          else
            handleUnknownReference code env context tokens invocationStartIndex output
              invocationStart invocationName
        | none =>
          handleUnknownReference code env context tokens invocationStartIndex output
            invocationStart invocationName
    | _, _ => (false, env, output)
termination_by structural fuel => fuel

/-- Evaluator.cpp EvaluateGenerate_Recursive: evaluate one token position,
returning the number of errors. -/
def EvaluateGenerate_Recursive (code : ExternalCode) :
    Nat → EvaluatorEnvironment → EvaluatorContext → List Token → Nat → GeneratorOutput →
    Nat × EvaluatorEnvironment × GeneratorOutput
  | 0, env, _, _, _, output => (1, env, output)
  | fuel + 1, env, context, tokens, startTokenIndex, output =>
    match tokens[startTokenIndex]? with
    | none => (1, env, output)
    | some token =>
      if token.type = TokenType.TokenType_OpenParen then
        let r := HandleInvocation_Recursive code fuel env context tokens startTokenIndex output
        (if r.1 then 0 else 1, r.2.1, r.2.2)
      else if token.type = TokenType.TokenType_CloseParen then
        (0, env, output)
      else
        if context.scope ≠ EvaluatorScope.EvaluatorScope_ExpressionsOnly then
          (1, env, output)
        else
          match token.type with
          | TokenType.TokenType_Symbol =>
            (0, env, evaluateSymbolOutput env context token output)
          | TokenType.TokenType_String =>
            (0, env, addStringOutputSource output token.contents
              StringOutMod.StringOutMod_SurroundWithQuotes token)
          | _ => (1, env, output)
termination_by structural fuel => fuel

/-- The loop body of Evaluator.cpp EvaluateGenerateAll_Recursive, with the
loop variable explicit: evaluate siblings from the current index until a
close paren or the end, inserting the delimiter between siblings and
skipping invocation bodies. -/
def EvaluateGenerateAllLoop (code : ExternalCode) :
    Nat → EvaluatorEnvironment → EvaluatorContext → List Token → Nat → Nat →
    Option StringOutput → GeneratorOutput → Nat × EvaluatorEnvironment × GeneratorOutput
  | 0, env, _, _, _, _, _, output => (1, env, output)
  | fuel + 1, env, context, tokens, startTokenIndex, currentTokenIndex,
      delimiterTemplate, output =>
    match tokens[currentTokenIndex]? with
    | none => (0, env, output)
    | some token =>
      if token.type = TokenType.TokenType_CloseParen then (0, env, output)
      else
        let output1 :=
          match delimiterTemplate with
          | some delimiter =>
            if currentTokenIndex ≠ startTokenIndex then
              { output with source := output.source ++
                  [{ delimiter with startToken := some token }] }
            else output
          | none => output
        let r := EvaluateGenerate_Recursive code fuel env context tokens
          currentTokenIndex output1
        let next :=
          if token.type = TokenType.TokenType_OpenParen then
            FindCloseParenTokenIndex tokens currentTokenIndex + 1
          else currentTokenIndex + 1
        let r2 := EvaluateGenerateAllLoop code fuel r.2.1 context tokens
          startTokenIndex next delimiterTemplate r.2.2
        (r.1 + r2.1, r2.2.1, r2.2.2)
termination_by structural fuel => fuel

end

/-- Evaluator.cpp EvaluateGenerateAll_Recursive: evaluate a sibling range
starting at the given index. -/
def EvaluateGenerateAll_Recursive (code : ExternalCode) (fuel : Nat)
    (env : EvaluatorEnvironment) (context : EvaluatorContext) (tokens : List Token)
    (startTokenIndex : Nat) (delimiterTemplate : Option StringOutput)
    (output : GeneratorOutput) : Nat × EvaluatorEnvironment × GeneratorOutput :=
  EvaluateGenerateAllLoop code fuel env context tokens startTokenIndex startTokenIndex
    delimiterTemplate output

--
-- Requirement propagation (Evaluator.cpp lines 468-509)
--

def setRequired (defs : List (String × ObjectDefinition)) (n : String) :
    List (String × ObjectDefinition) :=
  defs.map fun p => if p.1 = n then (p.1, { p.2 with isRequired := true }) else p

/-- One reference of a required definition: mark the named definition
required if it exists and is not already (lines 491-505). -/
def propagateRefStep (acc : List (String × ObjectDefinition) × Nat)
    (refPair : String × ObjectReferenceStatus) :
    List (String × ObjectDefinition) × Nat :=
  match findDef acc.1 refPair.2.name with
  | some target =>
    if target.isRequired then acc
    else (setRequired acc.1 refPair.2.name, acc.2 + 1)
  | none => acc

/-- The inner loop of PropagateRequiredToReferences for one definition: if it
is required, mark every definition named by one of its reference statuses as
required, counting the flips. -/
def propagateReferencesOf (defs : List (String × ObjectDefinition))
    (definitionName : String) : List (String × ObjectDefinition) × Nat :=
  match findDef defs definitionName with
  | none => (defs, 0)
  | some d =>
    if d.isRequired then d.references.foldl propagateRefStep (defs, 0)
    else (defs, 0)

def propagateSweepStep (acc : List (String × ObjectDefinition) × Nat) (n : String) :
    List (String × ObjectDefinition) × Nat :=
  ((propagateReferencesOf acc.1 n).1, acc.2 + (propagateReferencesOf acc.1 n).2)

/-- One full sweep over the definitions map (mutating in place, so later
definitions in the sweep see earlier flips), with the flip count. -/
def propagateSweep (defs : List (String × ObjectDefinition)) :
    List (String × ObjectDefinition) × Nat :=
  (defs.map Prod.fst).foldl propagateSweepStep (defs, 0)

/-- The do-while of PropagateRequiredToReferences, with explicit fuel; each
productive sweep strictly increases the number of required definitions, so
length + 1 sweeps always reach the fixed point. -/
def propagateLoopFuel : Nat → List (String × ObjectDefinition) →
    List (String × ObjectDefinition)
  | 0, defs => defs
  | fuel + 1, defs =>
    let r := propagateSweep defs
    if r.2 = 0 then r.1 else propagateLoopFuel fuel r.1

def PropagateRequiredToReferences (defs : List (String × ObjectDefinition)) :
    List (String × ObjectDefinition) :=
  propagateLoopFuel (defs.length + 1) defs

--
-- The readiness check of BuildEvaluateReferences (lines 564-699)
--

def setGuessState (env : EvaluatorEnvironment) (dn rn : String) (g : GuessState) :
    EvaluatorEnvironment :=
  { env with definitions := env.definitions.map fun p =>
      if p.1 = dn then
        (p.1, { p.2 with references := p.2.references.map fun q =>
          if q.1 = rn then (q.1, { q.2 with guessState := g }) else q })
      else p }

def statusReferencesOf (env : EvaluatorEnvironment) (dn rn : String) :
    List ObjectReference :=
  match statusOf env dn rn with
  | some st => st.references
  | none => []

/-- The flags local to the per-definition readiness check.  numErrors mirrors
the surrounding numErrorsOut accumulator, which the readiness check never
touches. -/
structure CheckFlags where
  canBuild : Bool := true
  hasRelevantChangeOccurred : Bool := false
  hasGuessedRefs : Bool := false
  guessMaybeDirtiedReferences : Bool := false
  numErrors : Nat := 0
deriving DecidableEq, Repr

/-- The by-index loop over a status's occurrences (lines 633-644 and
661-671): run the function-invocation generator on each occurrence, with the
list re-read every iteration because the generator can append to it. -/
def figOccurrenceLoop (code : ExternalCode) :
    Nat → EvaluatorEnvironment → String → String → Nat → Bool →
    EvaluatorEnvironment × Bool
  | 0, env, _, _, _, allOk => (env, allOk)
  | fuel + 1, env, dn, rn, i, allOk =>
    match (statusReferencesOf env dn rn)[i]? with
    | none => (env, allOk)
    | some reference =>
      let r := runFigIntoSplice code env reference
      figOccurrenceLoop code fuel r.2 dn rn (i + 1) (allOk && r.1)

/-- The readiness rules for a single reference status (lines 590-684). -/
def checkOneStatus (code : ExternalCode) (figFuel : Nat) (env : EvaluatorEnvironment)
    (dn rn : String) (flags : CheckFlags) : EvaluatorEnvironment × CheckFlags :=
  match statusOf env dn rn with
  | none => (env, flags)
  | some referenceStatus =>
    match findDef env.definitions rn with
    | some found =>
      if isCompileTimeObject found.type then
        if found.isLoaded then
          let flags1 :=
            if referenceStatus.guessState ≠ GuessState.GuessState_Resolved then
              { flags with hasRelevantChangeOccurred := true }
            else flags
          (setGuessState env dn rn GuessState.GuessState_Resolved, flags1)
        else
          (setGuessState env dn rn GuessState.GuessState_WaitingForLoad,
           { flags with canBuild := false })
      else if found.type = ObjectType.ObjectType_Function ∧
          referenceStatus.guessState ≠ GuessState.GuessState_Resolved then
        let r := figOccurrenceLoop code figFuel env dn rn 0 true
        (setGuessState r.1 dn rn GuessState.GuessState_Resolved,
         { flags with canBuild := flags.canBuild && r.2 })
      else (env, flags)
    | none =>
      if referenceStatus.guessState = GuessState.GuessState_None then
        let r := figOccurrenceLoop code figFuel env dn rn 0 true
        (setGuessState r.1 dn rn GuessState.GuessState_Guessed,
         { flags with canBuild := flags.canBuild && r.2,
                      hasRelevantChangeOccurred := true, hasGuessedRefs := true,
                      guessMaybeDirtiedReferences := true })
      else if referenceStatus.guessState = GuessState.GuessState_Guessed then
        (env, { flags with hasGuessedRefs := true })
      else (env, flags)

def statusNamesOf (env : EvaluatorEnvironment) (dn : String) : List String :=
  match findDef env.definitions dn with
  | some d => d.references.map Prod.fst
  | none => []

/-- One iteration of the definition's do-while: snapshot the status list
(referencesToCheck) and run the readiness rules on each entry against the
live environment. -/
def checkRefsPass (code : ExternalCode) (figFuel : Nat) (env : EvaluatorEnvironment)
    (dn : String) (flags : CheckFlags) : EvaluatorEnvironment × CheckFlags :=
  (statusNamesOf env dn).foldl
    (fun acc rn => checkOneStatus code figFuel acc.1 dn rn acc.2)
    (env, flags)

/-- The guessMaybeDirtiedReferences do-while (lines 579-685), fuel-bounded
because guessing can synthesize new references without bound. -/
def checkDefLoop (code : ExternalCode) (figFuel : Nat) :
    Nat → EvaluatorEnvironment → String → CheckFlags → EvaluatorEnvironment × CheckFlags
  | 0, env, _, flags => (env, flags)
  | fuel + 1, env, dn, flags =>
    let r := checkRefsPass code figFuel env dn
      { flags with guessMaybeDirtiedReferences := false }
    if r.2.guessMaybeDirtiedReferences then checkDefLoop code figFuel fuel r.1 dn r.2
    else r

/-- What the build pass records about one checked definition. -/
structure CheckRecord where
  defName : String
  defType : ObjectType
  canBuild : Bool
  hasGuessedRefs : Bool
  hasRelevantChangeOccurred : Bool
deriving DecidableEq, Repr

/-- Line 691: queue the definition for building. -/
def buildQueueCondition (record : CheckRecord) : Bool :=
  record.canBuild && (!record.hasGuessedRefs || record.hasRelevantChangeOccurred) &&
    isCompileTimeObject record.defType

/-- definitionsToCheck (lines 548-562): required and not yet loaded, with the
type snapshot used at the queueing decision. -/
def definitionsToCheckOf (env : EvaluatorEnvironment) : List (String × ObjectType) :=
  (env.definitions.filter fun p => p.2.isRequired && !p.2.isLoaded).map
    fun p => (p.1, p.2.type)

structure CheckPhaseResult where
  env : EvaluatorEnvironment
  log : List CheckRecord
  queue : List String

/-- The flags the readiness check computes for one definition of the pass. -/
def buildCheckRecord (code : ExternalCode) (figFuel loopFuel : Nat)
    (env : EvaluatorEnvironment) (p : String × ObjectType) : CheckRecord :=
  let r := checkDefLoop code figFuel loopFuel env p.1 {}
  { defName := p.1, defType := p.2, canBuild := r.2.canBuild,
    hasGuessedRefs := r.2.hasGuessedRefs,
    hasRelevantChangeOccurred := r.2.hasRelevantChangeOccurred }

/-- One iteration of the definitionsToCheck loop: run the readiness check
and push onto definitionsToBuild when line 691's condition holds. -/
def buildCheckStep (code : ExternalCode) (figFuel loopFuel : Nat)
    (acc : CheckPhaseResult) (p : String × ObjectType) : CheckPhaseResult :=
  let record := buildCheckRecord code figFuel loopFuel acc.env p
  { env := (checkDefLoop code figFuel loopFuel acc.env p.1 {}).1,
    log := acc.log ++ [record],
    queue := if buildQueueCondition record then acc.queue ++ [p.1] else acc.queue }

/-- The readiness-check phase of one BuildEvaluateReferences pass: check each
required-but-unloaded definition and queue the buildable compile-time ones
(definitionsToBuild). -/
def buildCheckPhase (code : ExternalCode) (figFuel loopFuel : Nat)
    (env : EvaluatorEnvironment) : CheckPhaseResult :=
  (definitionsToCheckOf env).foldl (buildCheckStep code figFuel loopFuel)
    { env := env, log := [], queue := [] }

--
-- The build stages of BuildEvaluateReferences (lines 701-954)
--

inductive BuildStage where
  | BuildStage_None
  | BuildStage_Compiling
  | BuildStage_Linking
  | BuildStage_Loading
  | BuildStage_ResolvingReferences
  | BuildStage_Finished
deriving DecidableEq, Repr

/-- Modelled from the spec: the file-system and toolchain outcomes for one
build object — writeGeneratorOutput success, the fileIsMoreRecentlyModified
freshness test, compiler and linker exit statuses and the dynamic-loader
outcomes (FileUtilities, RunProcess, DynamicLoader: not in src). -/
structure BuildObjectInput where
  name : String
  defType : ObjectType
  writeOk : Bool := true
  sourceNewerThanLib : Bool := true
  compileExit : Int := 0
  linkExit : Int := 0
  loadOk : Bool := true
  symbolOk : Bool := true
  poolPresent : Bool := true
deriving DecidableEq, Repr

structure BuildObjectState where
  stage : BuildStage := BuildStage.BuildStage_None
  status : Int := -1
deriving DecidableEq, Repr

inductive BuildEvent where
  | spawnCompile (name : String)
  | spawnLink (name : String)
  | waitAllProcessesClosed
deriving DecidableEq, Repr

def maxProcessesSpawned : Nat := 8

/-- The compile loop (lines 709-806): per object, failing to write the
source skips it; a source no newer than the cached shared library skips
straight to Linking with status 0 and spawns nothing; otherwise a compile
subprocess is spawned, waiting for the whole wave whenever the counter
reaches the cap. -/
def compilePhaseEvents : List BuildObjectInput → Nat → List BuildEvent
  | [], _ => []
  | o :: rest, currentNumProcessesSpawned =>
    if o.writeOk = false then compilePhaseEvents rest currentNumProcessesSpawned
    else if o.sourceNewerThanLib = false then
      compilePhaseEvents rest currentNumProcessesSpawned
    else
      let c := currentNumProcessesSpawned + 1
      if maxProcessesSpawned ≤ c then
        BuildEvent.spawnCompile o.name :: BuildEvent.waitAllProcessesClosed ::
          compilePhaseEvents rest 0
      else
        BuildEvent.spawnCompile o.name :: compilePhaseEvents rest c

/-- The per-object state at the end of the compile loop. -/
def afterCompilePhase (o : BuildObjectInput) : BuildObjectState :=
  if o.writeOk = false then {}
  else if o.sourceNewerThanLib = false then
    { stage := BuildStage.BuildStage_Linking, status := 0 }
  else { stage := BuildStage.BuildStage_Compiling, status := o.compileExit }

/-- Whether the link loop (lines 812-846) spawns a linker for the object:
only stage Compiling with compile status 0. -/
def linkSpawned (o : BuildObjectInput) : Bool :=
  o.writeOk && o.sourceNewerThanLib && (o.compileExit == 0)

/-- The link loop spawns its processes with no counter and no intermediate
wait; the single wait comes after the whole loop (line 849). -/
def linkPhaseEvents (objs : List BuildObjectInput) : List BuildEvent :=
  (objs.filter linkSpawned).map fun o => BuildEvent.spawnLink o.name

def afterLinkPhase (o : BuildObjectInput) (s : BuildObjectState) : BuildObjectState :=
  if s.stage ≠ BuildStage.BuildStage_Compiling then s
  else if s.status ≠ 0 then s
  else { stage := BuildStage.BuildStage_Linking, status := o.linkExit }

/-- The load loop (lines 851-951) processes an object exactly when it is in
stage Linking with status 0. -/
def loadPhaseEnters (s : BuildObjectState) : Bool :=
  decide (s.stage = BuildStage.BuildStage_Linking ∧ s.status = 0)

/-- The load loop for one object: load the library, resolve the entry
symbol, install it, then resolve the pool references; the Bool is whether
definition->isLoaded was set. -/
def afterLoadPhase (o : BuildObjectInput) (s : BuildObjectState) :
    BuildObjectState × Bool :=
  if s.stage ≠ BuildStage.BuildStage_Linking then (s, false)
  else if s.status ≠ 0 then (s, false)
  else
    let s1 := { s with stage := BuildStage.BuildStage_Loading }
    if o.loadOk = false then (s1, false)
    else if o.symbolOk = false then (s1, false)
    else
      let s2 := { s1 with stage := BuildStage.BuildStage_ResolvingReferences }
      if o.poolPresent = false then (s2, false)
      else ({ s2 with stage := BuildStage.BuildStage_Finished }, true)

/-- The subprocess events of one whole BuildEvaluateReferences pass: the
compile wave, the wait at line 809, the link wave, the wait at line 849. -/
def buildPassEvents (objs : List BuildObjectInput) : List BuildEvent :=
  compilePhaseEvents objs 0 ++ [BuildEvent.waitAllProcessesClosed] ++
    linkPhaseEvents objs ++ [BuildEvent.waitAllProcessesClosed]

/-- The largest number of subprocesses ever simultaneously alive along an
event trace, counting every spawned process as alive until the next
wait-for-all (children are only reaped there). -/
def maxLiveAux : List BuildEvent → Nat → Nat
  | [], current => current
  | BuildEvent.waitAllProcessesClosed :: rest, current => max current (maxLiveAux rest 0)
  | _ :: rest, current => max (current + 1) (maxLiveAux rest (current + 1))

def maxLiveProcesses (events : List BuildEvent) : Nat := maxLiveAux events 0

--
-- The final check of EvaluateResolveReferences (lines 987-1054)
--

/-- The error/report accounting of the final loop for one definition:
(errors counted, error messages printed).  Notes are not errors.  The
"reference has not been resolved" report at line 1033 prints an error but
does not increment the error count. -/
def finalCheckDefinition (env : EvaluatorEnvironment) (d : ObjectDefinition) :
    Nat × Nat :=
  if d.isRequired = false then (0, 0)
  else if isCompileTimeObject d.type then
    if findMacro env d.name = false ∧ findGenerator env d.name = false then (1, 1)
    else (0, 0)
  else
    let folded := d.references.foldl
      (fun (acc : Nat × Nat × Nat) refPair =>
        let st := refPair.2
        let acc1 :=
          match findDef env.definitions st.name with
          | some found =>
            if isCompileTimeObject found.type ∧ isCompileTimeCodeLoaded env found = false then
              (acc.1 + 1, acc.2.1, acc.2.2 + 1)
            else acc
          | none => acc
        if st.guessState = GuessState.GuessState_None then
          (acc1.1, acc1.2.1 + 1, acc1.2.2)
        else acc1)
      (0, 0, 0)
    if folded.2.2 ≠ 0 then (folded.1, folded.2.1 + 1) else (folded.1, folded.2.1)

def finalCheck (env : EvaluatorEnvironment) : Nat × Nat :=
  env.definitions.foldl
    (fun acc p =>
      let r := finalCheckDefinition env p.2
      (acc.1 + r.1, acc.2 + r.2))
    (0, 0)

/-- Line 1053: the boolean EvaluateResolveReferences returns after the
fixed-point loop. -/
def EvaluateResolveReferences_finalResult (env : EvaluatorEnvironment)
    (numBuildResolveErrors : Nat) : Bool :=
  decide ((finalCheck env).1 = 0 ∧ numBuildResolveErrors = 0)

--
-- Association-list lemmas
--

theorem findAssoc_update {α : Type} (l : List (String × α)) (k n : String) (g : α → α) :
    findAssoc (l.map fun p => if p.1 = k then (p.1, g p.2) else p) n =
      if n = k then (findAssoc l n).map g else findAssoc l n := by
  induction l with
  | nil => simp [findAssoc]
  | cons p t ih =>
    by_cases hk : p.1 = k
    · by_cases hn : p.1 = n
      · have hnk : n = k := hn ▸ hk
        simp [findAssoc, hk, hn, hnk]
      · have hnk : ¬n = k := fun h => hn (hk.trans h.symm)
        have hkn : ¬k = n := fun h => hnk h.symm
        simp [findAssoc, hk, hn, hnk, hkn, ih]
    · by_cases hn : p.1 = n
      · have hnk : ¬n = k := fun h => hk (hn.trans h)
        have hkn : ¬k = n := fun h => hnk h.symm
        simp [findAssoc, hk, hn, hnk, hkn]
      · simp [findAssoc, hk, hn, ih]

theorem findAssoc_append_of_none {α : Type} {l₁ : List (String × α)} {n : String}
    (l₂ : List (String × α)) (h : findAssoc l₁ n = none) :
    findAssoc (l₁ ++ l₂) n = findAssoc l₂ n := by
  induction l₁ with
  | nil => simp
  | cons p t ih =>
    by_cases hn : p.1 = n <;> simp_all [findAssoc]

theorem findAssoc_append_of_some {α : Type} {l₁ : List (String × α)} {n : String}
    {v : α} (l₂ : List (String × α)) (h : findAssoc l₁ n = some v) :
    findAssoc (l₁ ++ l₂) n = some v := by
  induction l₁ with
  | nil => simp [findAssoc] at h
  | cons p t ih =>
    by_cases hn : p.1 = n <;> simp_all [findAssoc]

theorem addToPool_mem (pools : List (String × ObjectReferencePool)) (rn : String)
    (reference : ObjectReference) :
    ∃ pool, findPool (addToPool pools rn reference) rn = some pool ∧
      reference ∈ pool.references := by
  unfold addToPool
  cases h : findPool pools rn with
  | none =>
    refine ⟨{ references := [reference] }, ?_, by simp⟩
    unfold findPool at h ⊢
    rw [findAssoc_append_of_none _ h]
    simp [findAssoc]
  | some pool =>
    refine ⟨{ pool with references := pool.references ++ [reference] }, ?_, by simp⟩
    unfold findPool at h ⊢
    rw [findAssoc_update pools rn rn
      (fun v => { v with references := v.references ++ [reference] })]
    simp [h]

--
-- C6: addObjectReference and the pool-reachability invariant
--

/-- C6 (amended): provided the enclosing definition — the one named by the
reference's context, or the module root for module-scope references —
exists in environment.definitions, addObjectReference records the added
reference both in the global reference pool and in that enclosing
definition's ReferenceStatus map. -/
theorem c6_amended_pool_reachable (env : EvaluatorEnvironment) (referenceName : String)
    (reference : ObjectReference) (d : ObjectDefinition)
    (h : findDef env.definitions (referenceDefinitionName reference) = some d) :
    (∃ pool, findPool (addObjectReference env referenceName reference).1.referencePools
        referenceName = some pool ∧ reference ∈ pool.references) ∧
    ∃ st, statusOf (addObjectReference env referenceName reference).1
        (referenceDefinitionName reference) referenceName = some st ∧
      reference ∈ st.references := by
  refine ⟨addToPool_mem env.referencePools referenceName reference, ?_⟩
  have hdefs : (addObjectReference env referenceName reference).1.definitions =
      addObjectReferenceDefs env (referenceDefinitionName reference) referenceName
        reference := rfl
  unfold statusOf
  rw [hdefs]
  unfold addObjectReferenceDefs
  simp only [h]
  cases hst : findStatus d.references referenceName with
  | none =>
    simp only [hst]
    refine ⟨{ name := referenceName, guessState := GuessState.GuessState_None,
              references := [reference] }, ?_, by simp⟩
    unfold findDef at h ⊢
    unfold insertNewStatus
    rw [findAssoc_update env.definitions (referenceDefinitionName reference)
      (referenceDefinitionName reference)
      (fun v => { v with references := v.references ++
        [(referenceName, { name := referenceName,
                           guessState := GuessState.GuessState_None,
                           references := [reference] })] })]
    simp only [if_true, h, Option.map_some', Option.some_bind]
    unfold findStatus at hst ⊢
    rw [findAssoc_append_of_none _ hst]
    simp [findAssoc]
  | some st =>
    simp only [hst]
    refine ⟨{ st with references := st.references ++ [reference] }, ?_, by simp⟩
    unfold findDef at h ⊢
    unfold appendRefToStatus
    rw [findAssoc_update env.definitions (referenceDefinitionName reference)
      (referenceDefinitionName reference)
      (fun v => { v with references := v.references.map fun q =>
        if q.1 = referenceName then
          (q.1, { q.2 with references := q.2.references ++ [reference] })
        else q })]
    simp only [if_true, h, Option.map_some', Option.some_bind]
    unfold findStatus at hst ⊢
    rw [findAssoc_update d.references referenceName referenceName
      (fun v => { v with references := v.references ++ [reference] })]
    simp [hst]

def c6Env : EvaluatorEnvironment := {}

def c6Reference : ObjectReference :=
  { context := { scope := EvaluatorScope.EvaluatorScope_Body,
                 definitionName := some "ghost" } }

/-- C6 (counterexample): when the enclosing definition does not exist, the
C++ code prints an internal error and returns null — but has already
appended the reference to the reference pool, so the added pool entry is
recorded in no definition's ReferenceStatus map and the claimed invariant
fails for this call. -/
theorem c6_counterexample :
    (addObjectReference c6Env "r" c6Reference).2 = none ∧
    findPool (addObjectReference c6Env "r" c6Reference).1.referencePools "r" =
      some { references := [c6Reference] } ∧
    (addObjectReference c6Env "r" c6Reference).1.definitions = [] := by
  refine ⟨rfl, rfl, rfl⟩

def c6WitnessDef : ObjectDefinition :=
  { name := globalDefinitionName, type := ObjectType.ObjectType_Function,
    isRequired := true }

def c6WitnessEnv : EvaluatorEnvironment :=
  { definitions := [(globalDefinitionName, c6WitnessDef)] }

def c6WitnessReference : ObjectReference :=
  { context := { scope := EvaluatorScope.EvaluatorScope_Module } }

theorem c6_amended_pool_reachable_witness :
    findDef c6WitnessEnv.definitions (referenceDefinitionName c6WitnessReference) =
      some c6WitnessDef ∧
    ((∃ pool, findPool
        (addObjectReference c6WitnessEnv "r" c6WitnessReference).1.referencePools "r" =
          some pool ∧ c6WitnessReference ∈ pool.references) ∧
      ∃ st, statusOf (addObjectReference c6WitnessEnv "r" c6WitnessReference).1
          (referenceDefinitionName c6WitnessReference) "r" = some st ∧
        c6WitnessReference ∈ st.references) :=
  ⟨by decide, c6_amended_pool_reachable c6WitnessEnv "r" c6WitnessReference
    c6WitnessDef (by decide)⟩

--
-- C2: the success boolean of EvaluateResolveReferences
--

def c2FailingEnv : EvaluatorEnvironment :=
  { definitions :=
      [("main",
        { name := "main", type := ObjectType.ObjectType_Function, isRequired := true,
          references :=
            [("mystery",
              { name := "mystery", guessState := GuessState.GuessState_None })] })] }

/-- C2 (evaluation at the failing input): a required non-compile-time
definition holds a ReferenceStatus still in state None whose name has no
definition.  The final check prints the "reference has not been resolved"
error (one error message) yet counts zero errors, so
EvaluateResolveReferences returns true — the success boolean does not
indicate failure, contradicting the claim. -/
theorem c2_code_evaluation :
    (statusOf c2FailingEnv "main" "mystery").map ObjectReferenceStatus.guessState =
      some GuessState.GuessState_None ∧
    (findDef c2FailingEnv.definitions "main").map ObjectDefinition.isRequired =
      some true ∧
    finalCheck c2FailingEnv = (0, 1) ∧
    EvaluateResolveReferences_finalResult c2FailingEnv 0 = true := by
  refine ⟨rfl, rfl, rfl, rfl⟩

--
-- Live-process accounting lemmas for the build waves
--

/-- The number of unreaped children after an event trace. -/
def liveAfter : List BuildEvent → Nat → Nat
  | [], current => current
  | BuildEvent.waitAllProcessesClosed :: rest, _ => liveAfter rest 0
  | _ :: rest, current => liveAfter rest (current + 1)

theorem le_maxLiveAux (events : List BuildEvent) (current : Nat) :
    current ≤ maxLiveAux events current := by
  induction events generalizing current with
  | nil => simp [maxLiveAux]
  | cons e rest ih =>
    cases e with
    | waitAllProcessesClosed => simp [maxLiveAux]
    | spawnCompile n =>
      have := ih (current + 1)
      simp only [maxLiveAux]
      omega
    | spawnLink n =>
      have := ih (current + 1)
      simp only [maxLiveAux]
      omega

theorem liveAfter_le_maxLiveAux (events : List BuildEvent) (current : Nat) :
    liveAfter events current ≤ maxLiveAux events current := by
  induction events generalizing current with
  | nil => simp [liveAfter, maxLiveAux]
  | cons e rest ih =>
    cases e with
    | waitAllProcessesClosed =>
      simp only [liveAfter, maxLiveAux]
      have := ih 0
      omega
    | spawnCompile n =>
      simp only [liveAfter, maxLiveAux]
      have := ih (current + 1)
      omega
    | spawnLink n =>
      simp only [liveAfter, maxLiveAux]
      have := ih (current + 1)
      omega

theorem maxLiveAux_append (a b : List BuildEvent) (current : Nat) :
    maxLiveAux (a ++ b) current =
      max (maxLiveAux a current) (maxLiveAux b (liveAfter a current)) := by
  induction a generalizing current with
  | nil =>
    simp only [List.nil_append, maxLiveAux, liveAfter]
    have := le_maxLiveAux b current
    omega
  | cons e rest ih =>
    cases e with
    | waitAllProcessesClosed =>
      have h1 : (BuildEvent.waitAllProcessesClosed :: rest) ++ b =
          BuildEvent.waitAllProcessesClosed :: (rest ++ b) := rfl
      rw [h1]
      simp only [maxLiveAux, liveAfter]
      rw [ih 0]
      omega
    | spawnCompile n =>
      have h1 : (BuildEvent.spawnCompile n :: rest) ++ b =
          BuildEvent.spawnCompile n :: (rest ++ b) := rfl
      rw [h1]
      simp only [maxLiveAux, liveAfter]
      rw [ih (current + 1)]
      omega
    | spawnLink n =>
      have h1 : (BuildEvent.spawnLink n :: rest) ++ b =
          BuildEvent.spawnLink n :: (rest ++ b) := rfl
      rw [h1]
      simp only [maxLiveAux, liveAfter]
      rw [ih (current + 1)]
      omega

/-- The compile wave honours the cap: whenever the spawn counter starts at
most one below the cap (as it does at the start of the pass), the number of
live compiler children never exceeds 8. -/
theorem compilePhase_live_bound (objs : List BuildObjectInput)
    (counter current : Nat) (hcounter : counter ≤ 7) (hcur : current ≤ counter) :
    maxLiveAux (compilePhaseEvents objs counter) current ≤ 8 := by
  induction objs generalizing counter current with
  | nil => simp [maxLiveAux]; omega
  | cons o rest ih =>
    simp only [compilePhaseEvents]
    by_cases hw : o.writeOk = false
    · simp only [hw, if_true]
      exact ih counter current hcounter hcur
    · simp only [hw, if_false]
      by_cases hs : o.sourceNewerThanLib = false
      · simp only [hs, if_true]
        exact ih counter current hcounter hcur
      · simp only [hs, if_false]
        by_cases hcap : maxProcessesSpawned ≤ counter + 1
        · simp only [hcap, if_true, maxLiveAux]
          have h1 := ih 0 0 (by omega) (by omega)
          omega
        · simp only [hcap, if_false, maxLiveAux]
          have h1 := ih (counter + 1) (current + 1) (by
            simp [maxProcessesSpawned] at hcap; omega) (by omega)
          omega

/-- The link wave spawns one process per eligible object with no wait, so
its live count is bounded only by the number of objects. -/
theorem linkPhase_live_bound (objs : List BuildObjectInput) :
    maxLiveAux (linkPhaseEvents objs) 0 ≤ objs.length := by
  have general : ∀ (l : List BuildObjectInput) (current : Nat),
      maxLiveAux (l.map fun o => BuildEvent.spawnLink o.name) current ≤
        current + l.length := by
    intro l
    induction l with
    | nil => intro current; simp [maxLiveAux]
    | cons o rest ih =>
      intro current
      simp only [List.map_cons, maxLiveAux, List.length_cons]
      have := ih (current + 1)
      omega
  have hlen : (objs.filter linkSpawned).length ≤ objs.length :=
    List.length_filter_le _ _
  have := general (objs.filter linkSpawned) 0
  unfold linkPhaseEvents
  omega

def c4Objects : List BuildObjectInput :=
  [{ name := "m1", defType := ObjectType.ObjectType_CompileTimeMacro },
   { name := "m2", defType := ObjectType.ObjectType_CompileTimeMacro },
   { name := "m3", defType := ObjectType.ObjectType_CompileTimeMacro },
   { name := "m4", defType := ObjectType.ObjectType_CompileTimeMacro },
   { name := "m5", defType := ObjectType.ObjectType_CompileTimeMacro },
   { name := "m6", defType := ObjectType.ObjectType_CompileTimeMacro },
   { name := "m7", defType := ObjectType.ObjectType_CompileTimeMacro },
   { name := "m8", defType := ObjectType.ObjectType_CompileTimeMacro },
   { name := "m9", defType := ObjectType.ObjectType_CompileTimeMacro }]

/-- C4 (counterexample): with nine build objects that all compile
successfully, the compile wave stays within the cap of 8 but the link loop
spawns all nine linkers before the single wait at line 849, so nine linker
subprocesses are live simultaneously — more than N = 8, refuting the claim
that both phases spawn at most 8 children before waiting. -/
theorem c4_counterexample :
    maxLiveProcesses (buildPassEvents c4Objects) = 9 ∧
    maxLiveProcesses (compilePhaseEvents c4Objects 0 ++
      [BuildEvent.waitAllProcessesClosed]) = 8 ∧
    maxLiveProcesses (linkPhaseEvents c4Objects) = 9 := by
  refine ⟨rfl, rfl, rfl⟩

/-- C4 (amended): during a BuildEvaluateReferences pass the compile wave
keeps at most 8 compiler subprocesses live (it waits for the whole wave
whenever the counter reaches 8, and again at line 809 before linking), but
the link wave has no counter: it spawns one linker per eligible object and
waits only after the loop, so the number of live subprocesses in the pass is
bounded by max 8 (number of build objects), not by 8. -/
theorem c4_amended_concurrency (objs : List BuildObjectInput) :
    maxLiveProcesses (compilePhaseEvents objs 0 ++
      [BuildEvent.waitAllProcessesClosed]) ≤ 8 ∧
    maxLiveProcesses (buildPassEvents objs) ≤ max 8 objs.length := by
  have hcompile : maxLiveAux (compilePhaseEvents objs 0) 0 ≤ 8 :=
    compilePhase_live_bound objs 0 0 (by omega) (by omega)
  have hwait : ∀ x, maxLiveAux [BuildEvent.waitAllProcessesClosed] x = x := by
    intro x; simp [maxLiveAux]
  constructor
  · unfold maxLiveProcesses
    rw [maxLiveAux_append]
    rw [hwait]
    have := liveAfter_le_maxLiveAux (compilePhaseEvents objs 0) 0
    omega
  · have hassoc : buildPassEvents objs =
        compilePhaseEvents objs 0 ++ ([BuildEvent.waitAllProcessesClosed] ++
          (linkPhaseEvents objs ++ [BuildEvent.waitAllProcessesClosed])) := by
      unfold buildPassEvents
      simp [List.append_assoc]
    unfold maxLiveProcesses
    rw [hassoc, maxLiveAux_append, maxLiveAux_append, maxLiveAux_append]
    rw [hwait, hwait]
    have hliveW : ∀ x, liveAfter [BuildEvent.waitAllProcessesClosed] x = 0 := by
      intro x; simp [liveAfter]
    rw [hliveW]
    have hlink := linkPhase_live_bound objs
    have h3 := liveAfter_le_maxLiveAux (linkPhaseEvents objs) 0
    have h4 := liveAfter_le_maxLiveAux (compilePhaseEvents objs 0) 0
    omega

--
-- C7: cache hits skip compile and link
--

theorem mem_of_spawnCompile {objs : List BuildObjectInput} {n : String} {c : Nat}
    (h : BuildEvent.spawnCompile n ∈ compilePhaseEvents objs c) :
    ∃ o ∈ objs, o.name = n ∧ o.writeOk = true ∧ o.sourceNewerThanLib = true := by
  induction objs generalizing c with
  | nil => simp [compilePhaseEvents] at h
  | cons o rest ih =>
    cases hob : o.writeOk with
    | false =>
      simp only [compilePhaseEvents, hob] at h
      rw [if_pos trivial] at h
      obtain ⟨o', ho', hrest⟩ := ih h
      exact ⟨o', List.mem_cons_of_mem _ ho', hrest⟩
    | true =>
      cases hos : o.sourceNewerThanLib with
      | false =>
        simp only [compilePhaseEvents, hob, hos] at h
        rw [if_pos trivial] at h
        obtain ⟨o', ho', hrest⟩ := ih h
        exact ⟨o', List.mem_cons_of_mem _ ho', hrest⟩
      | true =>
        simp only [compilePhaseEvents, hob, hos] at h
        by_cases hcap : maxProcessesSpawned ≤ c + 1
        · rw [if_pos hcap] at h
          rcases List.mem_cons.mp h with heq | h2
          · exact ⟨o, List.mem_cons_self _ _, by
              injection heq with hn
              exact ⟨hn.symm, hob, hos⟩⟩
          · rcases List.mem_cons.mp h2 with heq | h3
            · exact absurd heq (by simp)
            · obtain ⟨o', ho', hrest⟩ := ih h3
              exact ⟨o', List.mem_cons_of_mem _ ho', hrest⟩
        · rw [if_neg hcap] at h
          rcases List.mem_cons.mp h with heq | h2
          · exact ⟨o, List.mem_cons_self _ _, by
              injection heq with hn
              exact ⟨hn.symm, hob, hos⟩⟩
          · obtain ⟨o', ho', hrest⟩ := ih h2
            exact ⟨o', List.mem_cons_of_mem _ ho', hrest⟩

theorem mem_of_spawnLink {objs : List BuildObjectInput} {n : String}
    (h : BuildEvent.spawnLink n ∈ linkPhaseEvents objs) :
    ∃ o ∈ objs, o.name = n ∧ linkSpawned o = true := by
  unfold linkPhaseEvents at h
  obtain ⟨o, ho, heq⟩ := List.mem_map.mp h
  obtain ⟨ho1, ho2⟩ := List.mem_filter.mp ho
  refine ⟨o, ho1, ?_, ho2⟩
  injection heq

theorem nodup_name_unique {l : List BuildObjectInput}
    (hnodup : (l.map BuildObjectInput.name).Nodup) :
    ∀ a ∈ l, ∀ b ∈ l, a.name = b.name → a = b := by
  induction l with
  | nil => simp
  | cons x rest ih =>
    simp only [List.map_cons, List.nodup_cons] at hnodup
    intro a ha b hb hab
    rcases List.mem_cons.mp ha with ha1 | ha1
    · rcases List.mem_cons.mp hb with hb1 | hb1
      · rw [ha1, hb1]
      · subst ha1
        have hmm : b.name ∈ rest.map BuildObjectInput.name :=
          List.mem_map_of_mem BuildObjectInput.name hb1
        rw [← hab] at hmm
        exact absurd hmm hnodup.1
    · rcases List.mem_cons.mp hb with hb1 | hb1
      · subst hb1
        have hmm : a.name ∈ rest.map BuildObjectInput.name :=
          List.mem_map_of_mem BuildObjectInput.name ha1
        rw [hab] at hmm
        exact absurd hmm hnodup.1
      · exact ih hnodup.2 a ha1 b hb1 hab

/-- C7: for a build object whose generated source has not been modified more
recently than the cached shared library (and whose source file was written),
the pass spawns no compile subprocess and no link subprocess for it; after
the compile loop it stands in stage Linking with status 0, so the load loop
processes it exactly as if linking had completed with status 0, and with the
loader outcomes good it is loaded to completion. -/
theorem c7_cache_hit_skips (objs : List BuildObjectInput) (o : BuildObjectInput)
    (hmem : o ∈ objs) (hnodup : (objs.map BuildObjectInput.name).Nodup)
    (hw : o.writeOk = true) (hc : o.sourceNewerThanLib = false) :
    (∀ c, BuildEvent.spawnCompile o.name ∉ compilePhaseEvents objs c) ∧
    BuildEvent.spawnLink o.name ∉ linkPhaseEvents objs ∧
    afterCompilePhase o = { stage := BuildStage.BuildStage_Linking, status := 0 } ∧
    loadPhaseEnters (afterLinkPhase o (afterCompilePhase o)) = true ∧
    (o.loadOk = true → o.symbolOk = true → o.poolPresent = true →
      (afterLoadPhase o (afterLinkPhase o (afterCompilePhase o))).1.stage =
          BuildStage.BuildStage_Finished ∧
        (afterLoadPhase o (afterLinkPhase o (afterCompilePhase o))).2 = true) := by
  refine ⟨?_, ?_, ?_, ?_, ?_⟩
  · intro c h
    obtain ⟨o', ho', hname, _, hs'⟩ := mem_of_spawnCompile h
    have : o' = o := nodup_name_unique hnodup o' ho' o hmem hname
    rw [this] at hs'
    rw [hc] at hs'
    exact Bool.noConfusion hs'
  · intro h
    obtain ⟨o', ho', hname, hls⟩ := mem_of_spawnLink h
    have : o' = o := nodup_name_unique hnodup o' ho' o hmem hname
    rw [this] at hls
    simp [linkSpawned, hc] at hls
  · simp [afterCompilePhase, hw, hc]
  · simp [afterCompilePhase, afterLinkPhase, loadPhaseEnters, hw, hc]
  · intro hl hsym hp
    simp [afterCompilePhase, afterLinkPhase, afterLoadPhase, hw, hc, hl, hsym, hp]

def c7Object : BuildObjectInput :=
  { name := "cached-macro", defType := ObjectType.ObjectType_CompileTimeMacro,
    writeOk := true, sourceNewerThanLib := false }

theorem c7_cache_hit_skips_witness :
    (c7Object ∈ [c7Object] ∧ ([c7Object].map BuildObjectInput.name).Nodup ∧
      c7Object.writeOk = true ∧ c7Object.sourceNewerThanLib = false) ∧
    ((∀ c, BuildEvent.spawnCompile c7Object.name ∉ compilePhaseEvents [c7Object] c) ∧
      BuildEvent.spawnLink c7Object.name ∉ linkPhaseEvents [c7Object] ∧
      afterCompilePhase c7Object =
        { stage := BuildStage.BuildStage_Linking, status := 0 } ∧
      loadPhaseEnters (afterLinkPhase c7Object (afterCompilePhase c7Object)) = true ∧
      (c7Object.loadOk = true → c7Object.symbolOk = true → c7Object.poolPresent = true →
        (afterLoadPhase c7Object
            (afterLinkPhase c7Object (afterCompilePhase c7Object))).1.stage =
            BuildStage.BuildStage_Finished ∧
          (afterLoadPhase c7Object
            (afterLinkPhase c7Object (afterCompilePhase c7Object))).2 = true)) :=
  ⟨⟨List.mem_singleton.mpr rfl, by decide, rfl, rfl⟩,
   c7_cache_hit_skips [c7Object] c7Object (List.mem_singleton.mpr rfl) (by decide)
     rfl rfl⟩

--
-- Guess-state tracking lemmas
--

theorem statusOf_setGuessState_self (env : EvaluatorEnvironment) (dn rn : String)
    (g : GuessState) :
    statusOf (setGuessState env dn rn g) dn rn =
      (statusOf env dn rn).map (fun st => { st with guessState := g }) := by
  unfold statusOf setGuessState findDef findStatus
  simp only
  rw [findAssoc_update env.definitions dn dn
    (fun d => { d with references := d.references.map fun q =>
      if q.1 = rn then (q.1, { q.2 with guessState := g }) else q })]
  rw [if_pos rfl]
  cases hd : findAssoc env.definitions dn with
  | none => simp
  | some d =>
    simp only [Option.map_some', Option.some_bind]
    rw [findAssoc_update d.references rn rn (fun st => { st with guessState := g })]
    rw [if_pos rfl]

theorem addObjectReferenceDefs_none (env : EvaluatorEnvironment)
    (dnn rn' : String) (reference : ObjectReference)
    (h : findDef env.definitions dnn = none) :
    addObjectReferenceDefs env dnn rn' reference = env.definitions := by
  unfold addObjectReferenceDefs
  simp only [h]

theorem addObjectReferenceDefs_insert (env : EvaluatorEnvironment)
    (dnn rn' : String) (reference : ObjectReference) (d : ObjectDefinition)
    (h1 : findDef env.definitions dnn = some d)
    (h2 : findStatus d.references rn' = none) :
    addObjectReferenceDefs env dnn rn' reference =
      insertNewStatus env.definitions dnn rn' reference := by
  unfold addObjectReferenceDefs
  simp only [h1, h2]

theorem addObjectReferenceDefs_append (env : EvaluatorEnvironment)
    (dnn rn' : String) (reference : ObjectReference) (d : ObjectDefinition)
    (stOld : ObjectReferenceStatus)
    (h1 : findDef env.definitions dnn = some d)
    (h2 : findStatus d.references rn' = some stOld) :
    addObjectReferenceDefs env dnn rn' reference =
      appendRefToStatus env.definitions dnn rn' reference := by
  unfold addObjectReferenceDefs
  simp only [h1, h2]

theorem statusOf_addObjectReference (env : EvaluatorEnvironment) (rn' : String)
    (reference : ObjectReference) (dn rn : String) (st : ObjectReferenceStatus)
    (h : statusOf env dn rn = some st) :
    ∃ st', statusOf (addObjectReference env rn' reference).1 dn rn = some st' ∧
      st'.guessState = st.guessState := by
  unfold statusOf at h ⊢
  obtain ⟨d0, hd0, hst0⟩ := Option.bind_eq_some.mp h
  have hdefs : (addObjectReference env rn' reference).1.definitions =
      addObjectReferenceDefs env (referenceDefinitionName reference) rn' reference := rfl
  rw [hdefs]
  cases hfd : findDef env.definitions (referenceDefinitionName reference) with
  | none =>
    rw [addObjectReferenceDefs_none env _ rn' reference hfd]
    refine ⟨st, ?_, rfl⟩
    rw [hd0]
    simpa using hst0
  | some d =>
    cases hfs : findStatus d.references rn' with
    | none =>
      rw [addObjectReferenceDefs_insert env _ rn' reference d hfd hfs]
      unfold insertNewStatus
      unfold findDef at hd0 ⊢
      rw [findAssoc_update env.definitions (referenceDefinitionName reference) dn
        (fun v => { v with references := v.references ++
          [(rn', { name := rn', guessState := GuessState.GuessState_None,
                   references := [reference] })] })]
      by_cases hdd : dn = referenceDefinitionName reference
      · rw [if_pos hdd, hd0]
        refine ⟨st, ?_, rfl⟩
        simp only [Option.map_some', Option.some_bind]
        unfold findStatus at hst0 ⊢
        exact findAssoc_append_of_some _ hst0
      · rw [if_neg hdd, hd0]
        refine ⟨st, ?_, rfl⟩
        simpa using hst0
    | some stOld =>
      rw [addObjectReferenceDefs_append env _ rn' reference d stOld hfd hfs]
      unfold appendRefToStatus
      unfold findDef at hd0 ⊢
      rw [findAssoc_update env.definitions (referenceDefinitionName reference) dn
        (fun v => { v with references := v.references.map fun q =>
          if q.1 = rn' then (q.1, { q.2 with references := q.2.references ++ [reference] })
          else q })]
      by_cases hdd : dn = referenceDefinitionName reference
      · rw [if_pos hdd, hd0]
        simp only [Option.map_some', Option.some_bind]
        unfold findStatus at hst0 ⊢
        rw [findAssoc_update d0.references rn' rn
          (fun v => { v with references := v.references ++ [reference] })]
        by_cases hrr : rn = rn'
        · rw [if_pos hrr, hst0]
          exact ⟨{ st with references := st.references ++ [reference] }, by simp, rfl⟩
        · rw [if_neg hrr, hst0]
          exact ⟨st, rfl, rfl⟩
      · rw [if_neg hdd, hd0]
        refine ⟨st, ?_, rfl⟩
        simpa using hst0

theorem statusOf_applyNewReferences (refs : List (String × ObjectReference))
    (env : EvaluatorEnvironment) (dn rn : String) (st : ObjectReferenceStatus)
    (h : statusOf env dn rn = some st) :
    ∃ st', statusOf (applyNewReferences env refs) dn rn = some st' ∧
      st'.guessState = st.guessState := by
  induction refs generalizing env st with
  | nil => exact ⟨st, h, rfl⟩
  | cons p rest ih =>
    obtain ⟨st1, h1, hg1⟩ := statusOf_addObjectReference env p.1 p.2 dn rn st h
    obtain ⟨st2, h2, hg2⟩ := ih (addObjectReference env p.1 p.2).1 st1 h1
    exact ⟨st2, h2, hg2.trans hg1⟩

theorem statusOf_runFigIntoSplice (code : ExternalCode) (env : EvaluatorEnvironment)
    (reference : ObjectReference) (dn rn : String) (st : ObjectReferenceStatus)
    (h : statusOf env dn rn = some st) :
    ∃ st', statusOf (runFigIntoSplice code env reference).2 dn rn = some st' ∧
      st'.guessState = st.guessState := by
  unfold runFigIntoSplice
  exact statusOf_applyNewReferences _ env dn rn st h

theorem statusOf_figOccurrenceLoop (code : ExternalCode) (figFuel : Nat)
    (env : EvaluatorEnvironment) (dn0 rn0 dn rn : String) (i : Nat) (allOk : Bool)
    (st : ObjectReferenceStatus) (h : statusOf env dn rn = some st) :
    ∃ st', statusOf (figOccurrenceLoop code figFuel env dn0 rn0 i allOk).1 dn rn =
        some st' ∧ st'.guessState = st.guessState := by
  induction figFuel generalizing env i allOk st with
  | zero => exact ⟨st, h, rfl⟩
  | succ fuel ih =>
    simp only [figOccurrenceLoop]
    cases hre : (statusReferencesOf env dn0 rn0)[i]? with
    | none => exact ⟨st, h, rfl⟩
    | some reference =>
      obtain ⟨st1, h1, hg1⟩ := statusOf_runFigIntoSplice code env reference dn rn st h
      obtain ⟨st2, h2, hg2⟩ := ih (runFigIntoSplice code env reference).2 (i + 1)
        (allOk && (runFigIntoSplice code env reference).1) st1 h1
      exact ⟨st2, h2, hg2.trans hg1⟩

--
-- C9: the known-Function branch of the readiness check
--

/-- C9: when a reference names a known non-compile-time Function definition
and is not yet Resolved, the readiness check runs the function-invocation
generator over its occurrences and then sets the guess state to Resolved
unconditionally — even when the generator fails; the failure only makes
canBuild false for the pass (canBuild is the previous canBuild AND the
conjunction of the generator outcomes), and the error accumulator
numErrorsOut is untouched. -/
theorem c9_function_refs_resolved (code : ExternalCode) (figFuel : Nat)
    (env : EvaluatorEnvironment) (dn rn : String) (flags : CheckFlags)
    (st : ObjectReferenceStatus) (found : ObjectDefinition)
    (hst : statusOf env dn rn = some st)
    (hfound : findDef env.definitions rn = some found)
    (hty : found.type = ObjectType.ObjectType_Function)
    (hns : st.guessState ≠ GuessState.GuessState_Resolved) :
    (statusOf (checkOneStatus code figFuel env dn rn flags).1 dn rn).map
        ObjectReferenceStatus.guessState = some GuessState.GuessState_Resolved ∧
    (checkOneStatus code figFuel env dn rn flags).2.canBuild =
      (flags.canBuild && (figOccurrenceLoop code figFuel env dn rn 0 true).2) ∧
    (checkOneStatus code figFuel env dn rn flags).2.numErrors = flags.numErrors ∧
    ((figOccurrenceLoop code figFuel env dn rn 0 true).2 = false →
      (checkOneStatus code figFuel env dn rn flags).2.canBuild = false) := by
  have hct : isCompileTimeObject found.type = false := by
    rw [hty]; rfl
  have hred : checkOneStatus code figFuel env dn rn flags =
      (setGuessState (figOccurrenceLoop code figFuel env dn rn 0 true).1 dn rn
         GuessState.GuessState_Resolved,
       { flags with canBuild :=
           flags.canBuild && (figOccurrenceLoop code figFuel env dn rn 0 true).2 }) := by
    unfold checkOneStatus
    rw [hst, hfound]
    simp only [hct, Bool.false_eq_true, if_false]
    rw [if_pos ⟨hty, hns⟩]
  refine ⟨?_, ?_, ?_, ?_⟩
  · rw [hred]
    obtain ⟨st1, h1, _⟩ := statusOf_figOccurrenceLoop code figFuel env dn rn dn rn 0
      true st hst
    simp only [statusOf_setGuessState_self, h1, Option.map_some']
  · rw [hred]
  · rw [hred]
  · intro hfail
    rw [hred]
    simp [hfail]

def c9Code : ExternalCode :=
  { macroImpl := fun _ _ _ _ _ => (true, []),
    generatorImpl := fun _ _ _ _ _ => (true, {}),
    figImpl := fun _ _ _ _ => (false, [], {}) }

def c9Status : ObjectReferenceStatus :=
  { name := "g", guessState := GuessState.GuessState_None,
    references := [{ context := { scope := EvaluatorScope.EvaluatorScope_Body,
                                  definitionName := some "f" } }] }

def c9GDef : ObjectDefinition :=
  { name := "g", type := ObjectType.ObjectType_Function }

def c9Env : EvaluatorEnvironment :=
  { definitions :=
      [("f", { name := "f", type := ObjectType.ObjectType_Function,
               isRequired := true, references := [("g", c9Status)] }),
       ("g", c9GDef)] }

theorem c9_function_refs_resolved_witness :
    (statusOf c9Env "f" "g" = some c9Status ∧
      findDef c9Env.definitions "g" = some c9GDef ∧
      c9GDef.type = ObjectType.ObjectType_Function ∧
      c9Status.guessState ≠ GuessState.GuessState_Resolved) ∧
    ((statusOf (checkOneStatus c9Code 3 c9Env "f" "g" {}).1 "f" "g").map
        ObjectReferenceStatus.guessState = some GuessState.GuessState_Resolved ∧
      (checkOneStatus c9Code 3 c9Env "f" "g" {}).2.canBuild =
        (CheckFlags.canBuild {} && (figOccurrenceLoop c9Code 3 c9Env "f" "g" 0 true).2) ∧
      (checkOneStatus c9Code 3 c9Env "f" "g" {}).2.numErrors = CheckFlags.numErrors {} ∧
      ((figOccurrenceLoop c9Code 3 c9Env "f" "g" 0 true).2 = false →
        (checkOneStatus c9Code 3 c9Env "f" "g" {}).2.canBuild = false)) :=
  ⟨⟨rfl, rfl, rfl, by decide⟩,
   c9_function_refs_resolved c9Code 3 c9Env "f" "g" {} c9Status c9GDef rfl rfl rfl
     (by decide)⟩

--
-- C3: the build-queue condition
--

theorem findAssoc_mem {α : Type} {l : List (String × α)} {n : String} {v : α}
    (h : findAssoc l n = some v) : (n, v) ∈ l := by
  induction l with
  | nil => simp [findAssoc] at h
  | cons p t ih =>
    unfold findAssoc at h
    by_cases hn : p.1 = n
    · rw [if_pos hn] at h
      injection h with h
      have hp : (n, v) = p := by
        obtain ⟨p1, p2⟩ := p
        simp only at hn h
        rw [← hn, ← h]
      rw [hp]
      exact List.mem_cons_self _ _
    · rw [if_neg hn] at h
      exact List.mem_cons_of_mem _ (ih h)

theorem buildCheckRecord_defName (code : ExternalCode) (figFuel loopFuel : Nat)
    (env : EvaluatorEnvironment) (p : String × ObjectType) :
    (buildCheckRecord code figFuel loopFuel env p).defName = p.1 := rfl

theorem buildCheckRecord_defType (code : ExternalCode) (figFuel loopFuel : Nat)
    (env : EvaluatorEnvironment) (p : String × ObjectType) :
    (buildCheckRecord code figFuel loopFuel env p).defType = p.2 := rfl

theorem buildCheckFold_invariant (code : ExternalCode) (figFuel loopFuel : Nat)
    (toCheck : List (String × ObjectType)) (acc : CheckPhaseResult)
    (h1 : acc.queue = (acc.log.filter buildQueueCondition).map CheckRecord.defName) :
    (toCheck.foldl (buildCheckStep code figFuel loopFuel) acc).queue =
      ((toCheck.foldl (buildCheckStep code figFuel loopFuel) acc).log.filter
        buildQueueCondition).map CheckRecord.defName ∧
    (toCheck.foldl (buildCheckStep code figFuel loopFuel) acc).log.map
        (fun record => (record.defName, record.defType)) =
      acc.log.map (fun record => (record.defName, record.defType)) ++ toCheck := by
  induction toCheck generalizing acc with
  | nil => simpa using h1
  | cons p rest ih =>
    simp only [List.foldl_cons]
    have hstep : (buildCheckStep code figFuel loopFuel acc p).queue =
        ((buildCheckStep code figFuel loopFuel acc p).log.filter
          buildQueueCondition).map CheckRecord.defName := by
      unfold buildCheckStep
      by_cases hq : buildQueueCondition (buildCheckRecord code figFuel loopFuel acc.env p) = true
      · simp [List.filter_append, hq, h1, buildCheckRecord_defName]
      · have hq' : buildQueueCondition
            (buildCheckRecord code figFuel loopFuel acc.env p) = false := by
          revert hq
          cases buildQueueCondition (buildCheckRecord code figFuel loopFuel acc.env p) <;>
            simp
        simp [List.filter_append, hq', h1]
    obtain ⟨hq2, hl2⟩ := ih (buildCheckStep code figFuel loopFuel acc p) hstep
    refine ⟨hq2, ?_⟩
    rw [hl2]
    have hlog : (buildCheckStep code figFuel loopFuel acc p).log.map
        (fun record => (record.defName, record.defType)) =
        acc.log.map (fun record => (record.defName, record.defType)) ++ [p] := by
      unfold buildCheckStep
      simp [buildCheckRecord_defName, buildCheckRecord_defType]
    rw [hlog]
    simp

theorem definitionsToCheckOf_mem (env : EvaluatorEnvironment) (name : String)
    (d : ObjectDefinition) (hd : findDef env.definitions name = some d)
    (hreq : d.isRequired = true) (hnl : d.isLoaded = false) :
    (name, d.type) ∈ definitionsToCheckOf env := by
  unfold definitionsToCheckOf
  have hmem : (name, d) ∈ env.definitions := findAssoc_mem hd
  exact List.mem_map.mpr ⟨(name, d), List.mem_filter.mpr ⟨hmem, by simp [hreq, hnl]⟩, rfl⟩

/-- C3: within one BuildEvaluateReferences pass, a required, not-yet-loaded
definition is placed in the build queue (definitionsToBuild) exactly when
the readiness check recorded for it canBuild, no guessed references or a
relevant change this pass, and it is compile-time; the checked set is
exactly the required-but-unloaded definitions. -/
theorem c3_build_queue_iff (code : ExternalCode) (figFuel loopFuel : Nat)
    (env : EvaluatorEnvironment) (name : String) (d : ObjectDefinition)
    (hd : findDef env.definitions name = some d)
    (hreq : d.isRequired = true) (hnl : d.isLoaded = false) :
    (name ∈ (buildCheckPhase code figFuel loopFuel env).queue ↔
      ∃ record ∈ (buildCheckPhase code figFuel loopFuel env).log,
        record.defName = name ∧
        record.canBuild = true ∧
        (record.hasGuessedRefs = false ∨ record.hasRelevantChangeOccurred = true) ∧
        isCompileTimeObject record.defType = true) ∧
    (buildCheckPhase code figFuel loopFuel env).log.map
        (fun record => (record.defName, record.defType)) = definitionsToCheckOf env ∧
    (name, d.type) ∈ definitionsToCheckOf env := by
  have hfold := buildCheckFold_invariant code figFuel loopFuel
    (definitionsToCheckOf env) { env := env, log := [], queue := [] } rfl
  have hphase : buildCheckPhase code figFuel loopFuel env =
      (definitionsToCheckOf env).foldl (buildCheckStep code figFuel loopFuel)
        { env := env, log := [], queue := [] } := rfl
  refine ⟨?_, by rw [hphase]; simpa using hfold.2,
    definitionsToCheckOf_mem env name d hd hreq hnl⟩
  rw [hphase, hfold.1]
  constructor
  · intro hmm
    obtain ⟨r, hr, hname⟩ := List.mem_map.mp hmm
    obtain ⟨hrl, hrcond⟩ := List.mem_filter.mp hr
    unfold buildQueueCondition at hrcond
    simp only [Bool.and_eq_true, Bool.or_eq_true, Bool.not_eq_true'] at hrcond
    exact ⟨r, hrl, hname, hrcond.1.1, hrcond.1.2, hrcond.2⟩
  · rintro ⟨r, hrl, hname, hcb, hor, hct⟩
    refine List.mem_map.mpr ⟨r, List.mem_filter.mpr ⟨hrl, ?_⟩, hname⟩
    unfold buildQueueCondition
    simp only [Bool.and_eq_true, Bool.or_eq_true, Bool.not_eq_true']
    exact ⟨⟨hcb, hor⟩, hct⟩

def trivialExternalCode : ExternalCode :=
  { macroImpl := fun _ _ _ _ _ => (true, []),
    generatorImpl := fun _ _ _ _ _ => (true, {}),
    figImpl := fun _ _ _ _ => (true, [], {}) }

def c3Def : ObjectDefinition :=
  { name := "m", type := ObjectType.ObjectType_CompileTimeMacro, isRequired := true }

def c3Env : EvaluatorEnvironment := { definitions := [("m", c3Def)] }

theorem c3_build_queue_iff_witness :
    (findDef c3Env.definitions "m" = some c3Def ∧ c3Def.isRequired = true ∧
      c3Def.isLoaded = false) ∧
    ((("m" ∈ (buildCheckPhase trivialExternalCode 2 2 c3Env).queue) ↔
      ∃ record ∈ (buildCheckPhase trivialExternalCode 2 2 c3Env).log,
        record.defName = "m" ∧
        record.canBuild = true ∧
        (record.hasGuessedRefs = false ∨ record.hasRelevantChangeOccurred = true) ∧
        isCompileTimeObject record.defType = true) ∧
      (buildCheckPhase trivialExternalCode 2 2 c3Env).log.map
          (fun record => (record.defName, record.defType)) =
        definitionsToCheckOf c3Env ∧
      ("m", c3Def.type) ∈ definitionsToCheckOf c3Env) :=
  ⟨⟨rfl, rfl, rfl⟩,
   c3_build_queue_iff trivialExternalCode 2 2 c3Env "m" c3Def rfl rfl rfl⟩

--
-- Expansion-arena accounting for the evaluator
--

theorem addObjectReference_macroExpansions (env : EvaluatorEnvironment) (rn : String)
    (reference : ObjectReference) :
    (addObjectReference env rn reference).1.macroExpansions = env.macroExpansions := rfl

theorem applyNewReferences_macroExpansions (refs : List (String × ObjectReference))
    (env : EvaluatorEnvironment) :
    (applyNewReferences env refs).macroExpansions = env.macroExpansions := by
  induction refs generalizing env with
  | nil => rfl
  | cons p rest ih =>
    have hstep : applyNewReferences env (p :: rest) =
        applyNewReferences (addObjectReference env p.1 p.2).1 rest := rfl
    rw [hstep, ih]
    rfl

theorem runFigIntoSplice_macroExpansions (code : ExternalCode)
    (env : EvaluatorEnvironment) (reference : ObjectReference) :
    (runFigIntoSplice code env reference).2.macroExpansions = env.macroExpansions := by
  unfold runFigIntoSplice
  exact applyNewReferences_macroExpansions _ _

theorem handleUnknownReferenceResolved_macroExpansions (code : ExternalCode)
    (env1 : EvaluatorEnvironment) (reference : ObjectReference)
    (output1 : GeneratorOutput) (referenceStatus : ObjectReferenceStatus) :
    (handleUnknownReferenceResolved code env1 reference output1
      referenceStatus).2.1.macroExpansions = env1.macroExpansions := by
  unfold handleUnknownReferenceResolved
  by_cases hg : referenceStatus.guessState = GuessState.GuessState_Guessed
  · rw [if_pos hg]
    by_cases hr : (runFigIntoSplice code env1 reference).1 = false
    · rw [if_pos hr]
      exact runFigIntoSplice_macroExpansions _ _ _
    · rw [if_neg hr]
      exact runFigIntoSplice_macroExpansions _ _ _
  · rw [if_neg hg]

theorem handleUnknownReference_macroExpansions (code : ExternalCode)
    (env : EvaluatorEnvironment) (ctx : EvaluatorContext) (tokens : List Token)
    (i : Nat) (out : GeneratorOutput) (s n : Token) :
    (handleUnknownReference code env ctx tokens i out s n).2.1.macroExpansions =
      env.macroExpansions := by
  unfold handleUnknownReference
  cases haor : (addObjectReference (spliceAllocEnv env) n.contents
      (unknownNewReference env ctx tokens i)).2 with
  | none => rfl
  | some referenceStatus =>
    exact (handleUnknownReferenceResolved_macroExpansions code _ _ _
      referenceStatus).trans rfl

/-- The expansion arenas only grow during evaluation, and every expansion
added is non-empty and passed parenthesis validation. -/
def ExpSuffix (env env' : EvaluatorEnvironment) : Prop :=
  ∃ suffix, env'.macroExpansions = env.macroExpansions ++ suffix ∧
    ∀ e ∈ suffix, e ≠ [] ∧ validateParentheses e = true

theorem expSuffix_of_eq {a b : EvaluatorEnvironment}
    (h : b.macroExpansions = a.macroExpansions) : ExpSuffix a b :=
  ⟨[], by simp [h], by simp⟩

theorem expSuffix_refl (env : EvaluatorEnvironment) : ExpSuffix env env :=
  expSuffix_of_eq rfl

theorem expSuffix_trans {a b c : EvaluatorEnvironment}
    (h1 : ExpSuffix a b) (h2 : ExpSuffix b c) : ExpSuffix a c := by
  obtain ⟨s1, he1, hv1⟩ := h1
  obtain ⟨s2, he2, hv2⟩ := h2
  refine ⟨s1 ++ s2, by rw [he2, he1, List.append_assoc], ?_⟩
  intro e he
  rcases List.mem_append.mp he with he | he
  · exact hv1 e he
  · exact hv2 e he

/-- Every evaluator entry point only appends to the expansion arenas, and
appends only validated, non-empty expansions. -/
theorem evaluator_expansions_ok (code : ExternalCode) : ∀ fuel : Nat,
    (∀ env ctx tokens i out,
      ExpSuffix env (HandleInvocation_Recursive code fuel env ctx tokens i out).2.1) ∧
    (∀ env ctx tokens i out,
      ExpSuffix env (EvaluateGenerate_Recursive code fuel env ctx tokens i out).2.1) ∧
    (∀ env ctx tokens si ci delim out,
      ExpSuffix env
        (EvaluateGenerateAllLoop code fuel env ctx tokens si ci delim out).2.1) := by
  intro fuel
  induction fuel with
  | zero =>
    refine ⟨fun env _ _ _ _ => expSuffix_refl env, fun env _ _ _ _ => expSuffix_refl env,
      fun env _ _ _ _ _ _ => expSuffix_refl env⟩
  | succ fuel ih =>
    obtain ⟨ihH, ihG, ihL⟩ := ih
    refine ⟨?_, ?_, ?_⟩
    · intro env ctx tokens i out
      simp only [HandleInvocation_Recursive]
      split
      · split
        · exact expSuffix_refl env
        · split
          · split
            · exact expSuffix_refl env
            · split
              · exact expSuffix_refl env
              · split
                · exact expSuffix_refl env
                · next hfail hempty hval =>
                  refine @expSuffix_trans env _ _
                    ⟨[_], rfl, ?_⟩ (ihL _ _ _ _ _ _ _)
                  intro e he
                  rw [List.mem_singleton] at he
                  subst he
                  refine ⟨?_, ?_⟩
                  · intro hnil
                    rw [hnil] at hempty
                    exact hempty rfl
                  · cases hv : validateParentheses _
                    · exact absurd hv hval
                    · rfl
          · split
            · exact expSuffix_refl env
            · split
              · split
                · exact expSuffix_of_eq (applyNewReferences_macroExpansions _ _)
                · exact expSuffix_of_eq
                    (handleUnknownReference_macroExpansions _ _ _ _ _ _ _ _)
              · exact expSuffix_of_eq
                  (handleUnknownReference_macroExpansions _ _ _ _ _ _ _ _)
      · exact expSuffix_refl env
    · intro env ctx tokens i out
      simp only [EvaluateGenerate_Recursive]
      split
      · exact expSuffix_refl env
      · split
        · exact ihH _ _ _ _ _
        · split
          · exact expSuffix_refl env
          · split
            · exact expSuffix_refl env
            · split <;> exact expSuffix_refl env
    · intro env ctx tokens si ci delim out
      simp only [EvaluateGenerateAllLoop]
      split
      · exact expSuffix_refl env
      · split
        · exact expSuffix_refl env
        · exact expSuffix_trans (ihG _ _ _ _ _) (ihL _ _ _ _ _ _ _)

--
-- C8 and C10: the macro arm of the dispatcher
--

/-- The macro arm of HandleInvocation_Recursive (lines 191-267), reduced. -/
theorem HandleInvocation_macro_path (code : ExternalCode) (fuel : Nat)
    (env : EvaluatorEnvironment) (ctx : EvaluatorContext) (tokens : List Token)
    (i : Nat) (out : GeneratorOutput) (invocationStart invocationName : Token)
    (h1 : tokens[i]? = some invocationStart)
    (h2 : tokens[i + 1]? = some invocationName)
    (hsym : invocationName.type = TokenType.TokenType_Symbol)
    (hmac : findMacro env invocationName.contents = true) :
    HandleInvocation_Recursive code (fuel + 1) env ctx tokens i out =
      (if (code.macroImpl invocationName.contents env ctx tokens i).1 = false then
        (false, env, out)
      else if (code.macroImpl invocationName.contents env ctx tokens i).2.isEmpty then
        (true, env, out)
      else if validateParentheses
          (code.macroImpl invocationName.contents env ctx tokens i).2 = false then
        (false, env, out)
      else
        ((EvaluateGenerateAllLoop code fuel
            { env with macroExpansions := env.macroExpansions ++
                [(code.macroImpl invocationName.contents env ctx tokens i).2] }
            ctx (code.macroImpl invocationName.contents env ctx tokens i).2 0 0
            none out).1 == 0,
         (EvaluateGenerateAllLoop code fuel
            { env with macroExpansions := env.macroExpansions ++
                [(code.macroImpl invocationName.contents env ctx tokens i).2] }
            ctx (code.macroImpl invocationName.contents env ctx tokens i).2 0 0
            none out).2.1,
         (EvaluateGenerateAllLoop code fuel
            { env with macroExpansions := env.macroExpansions ++
                [(code.macroImpl invocationName.contents env ctx tokens i).2] }
            ctx (code.macroImpl invocationName.contents env ctx tokens i).2 0 0
            none out).2.2)) := by
  simp only [HandleInvocation_Recursive, h1, h2]
  rw [if_neg (fun hcon => hcon hsym), if_pos hmac]

/-- C8: dispatching a macro invocation.  On macro failure, or on non-empty
output failing parenthesis validation, the call returns false and the
output tokens are discarded: the expansion arenas are unchanged (the C++
code deletes the vector).  On success with non-empty well-balanced output,
the vector is appended to environment.macroExpansions first, and only then
is the expansion recursively evaluated with EvaluateGenerateAll from index
0 in the caller's current context — so the tokens remain in the arenas of
the final environment. -/
theorem c8_macro_dispatch (code : ExternalCode) (fuel : Nat)
    (env : EvaluatorEnvironment) (ctx : EvaluatorContext) (tokens : List Token)
    (i : Nat) (out : GeneratorOutput) (invocationStart invocationName : Token)
    (h1 : tokens[i]? = some invocationStart)
    (h2 : tokens[i + 1]? = some invocationName)
    (hsym : invocationName.type = TokenType.TokenType_Symbol)
    (hmac : findMacro env invocationName.contents = true) :
    ((code.macroImpl invocationName.contents env ctx tokens i).1 = false →
      HandleInvocation_Recursive code (fuel + 1) env ctx tokens i out =
        (false, env, out)) ∧
    ((code.macroImpl invocationName.contents env ctx tokens i).1 = true →
      (code.macroImpl invocationName.contents env ctx tokens i).2 ≠ [] →
      validateParentheses (code.macroImpl invocationName.contents env ctx tokens i).2
        = false →
      HandleInvocation_Recursive code (fuel + 1) env ctx tokens i out =
        (false, env, out)) ∧
    ((code.macroImpl invocationName.contents env ctx tokens i).1 = true →
      (code.macroImpl invocationName.contents env ctx tokens i).2 ≠ [] →
      validateParentheses (code.macroImpl invocationName.contents env ctx tokens i).2
        = true →
      HandleInvocation_Recursive code (fuel + 1) env ctx tokens i out =
        ((EvaluateGenerateAll_Recursive code fuel
            { env with macroExpansions := env.macroExpansions ++
                [(code.macroImpl invocationName.contents env ctx tokens i).2] }
            ctx (code.macroImpl invocationName.contents env ctx tokens i).2 0
            none out).1 == 0,
         (EvaluateGenerateAll_Recursive code fuel
            { env with macroExpansions := env.macroExpansions ++
                [(code.macroImpl invocationName.contents env ctx tokens i).2] }
            ctx (code.macroImpl invocationName.contents env ctx tokens i).2 0
            none out).2.1,
         (EvaluateGenerateAll_Recursive code fuel
            { env with macroExpansions := env.macroExpansions ++
                [(code.macroImpl invocationName.contents env ctx tokens i).2] }
            ctx (code.macroImpl invocationName.contents env ctx tokens i).2 0
            none out).2.2) ∧
      (code.macroImpl invocationName.contents env ctx tokens i).2 ∈
        (HandleInvocation_Recursive code (fuel + 1) env ctx tokens i
          out).2.1.macroExpansions) := by
  have hpath := HandleInvocation_macro_path code fuel env ctx tokens i out
    invocationStart invocationName h1 h2 hsym hmac
  refine ⟨?_, ?_, ?_⟩
  · intro hfail
    rw [hpath, if_pos hfail]
  · intro hok hne hval
    have hje : (code.macroImpl invocationName.contents env ctx tokens i).2.isEmpty
        = false := by
      cases htoks : (code.macroImpl invocationName.contents env ctx tokens i).2
      · exact absurd htoks hne
      · rfl
    rw [hpath, if_neg (by rw [hok]; exact fun hc => Bool.noConfusion hc),
      if_neg (by rw [hje]; exact fun hc => Bool.noConfusion hc), if_pos hval]
  · intro hok hne hval
    have hje : (code.macroImpl invocationName.contents env ctx tokens i).2.isEmpty
        = false := by
      cases htoks : (code.macroImpl invocationName.contents env ctx tokens i).2
      · exact absurd htoks hne
      · rfl
    have hred : HandleInvocation_Recursive code (fuel + 1) env ctx tokens i out =
        ((EvaluateGenerateAll_Recursive code fuel
            { env with macroExpansions := env.macroExpansions ++
                [(code.macroImpl invocationName.contents env ctx tokens i).2] }
            ctx (code.macroImpl invocationName.contents env ctx tokens i).2 0
            none out).1 == 0,
         (EvaluateGenerateAll_Recursive code fuel
            { env with macroExpansions := env.macroExpansions ++
                [(code.macroImpl invocationName.contents env ctx tokens i).2] }
            ctx (code.macroImpl invocationName.contents env ctx tokens i).2 0
            none out).2.1,
         (EvaluateGenerateAll_Recursive code fuel
            { env with macroExpansions := env.macroExpansions ++
                [(code.macroImpl invocationName.contents env ctx tokens i).2] }
            ctx (code.macroImpl invocationName.contents env ctx tokens i).2 0
            none out).2.2) := by
      rw [hpath, if_neg (by rw [hok]; exact fun hc => Bool.noConfusion hc),
        if_neg (by rw [hje]; exact fun hc => Bool.noConfusion hc),
        if_neg (by rw [hval]; exact fun hc => Bool.noConfusion hc)]
      rfl
    refine ⟨hred, ?_⟩
    rw [hred]
    obtain ⟨suffix, hs, _⟩ := (evaluator_expansions_ok code fuel).2.2
      { env with macroExpansions := env.macroExpansions ++
          [(code.macroImpl invocationName.contents env ctx tokens i).2] }
      ctx (code.macroImpl invocationName.contents env ctx tokens i).2 0 0 none out
    have hfinal : (EvaluateGenerateAll_Recursive code fuel
        { env with macroExpansions := env.macroExpansions ++
            [(code.macroImpl invocationName.contents env ctx tokens i).2] }
        ctx (code.macroImpl invocationName.contents env ctx tokens i).2 0
        none out).2.1.macroExpansions =
        (env.macroExpansions ++
          [(code.macroImpl invocationName.contents env ctx tokens i).2]) ++ suffix := hs
    rw [hfinal]
    exact List.mem_append_left _
      (List.mem_append_right _ (List.mem_singleton.mpr rfl))

def c8MacroCode : ExternalCode :=
  { macroImpl := fun _ _ _ _ _ =>
      (true, [{ type := TokenType.TokenType_Symbol, contents := "42" }]),
    generatorImpl := fun _ _ _ _ _ => (true, {}),
    figImpl := fun _ _ _ _ => (true, [], {}) }

def c8Env : EvaluatorEnvironment := { macros := ["my-macro"] }

def c8Tokens : List Token :=
  [{ type := TokenType.TokenType_OpenParen, contents := "(" },
   { type := TokenType.TokenType_Symbol, contents := "my-macro" },
   { type := TokenType.TokenType_CloseParen, contents := ")" }]

def c8Ctx : EvaluatorContext :=
  { scope := EvaluatorScope.EvaluatorScope_ExpressionsOnly }

theorem c8_macro_dispatch_witness :
    (c8Tokens[0]? = some { type := TokenType.TokenType_OpenParen, contents := "(" } ∧
      c8Tokens[0 + 1]? =
        some { type := TokenType.TokenType_Symbol, contents := "my-macro" } ∧
      ({ type := TokenType.TokenType_Symbol,
         contents := "my-macro" } : Token).type = TokenType.TokenType_Symbol ∧
      findMacro c8Env "my-macro" = true) ∧
    (((c8MacroCode.macroImpl "my-macro" c8Env c8Ctx c8Tokens 0).1 = false →
      HandleInvocation_Recursive c8MacroCode (4 + 1) c8Env c8Ctx c8Tokens 0 {} =
        (false, c8Env, {})) ∧
    ((c8MacroCode.macroImpl "my-macro" c8Env c8Ctx c8Tokens 0).1 = true →
      (c8MacroCode.macroImpl "my-macro" c8Env c8Ctx c8Tokens 0).2 ≠ [] →
      validateParentheses (c8MacroCode.macroImpl "my-macro" c8Env c8Ctx c8Tokens 0).2
        = false →
      HandleInvocation_Recursive c8MacroCode (4 + 1) c8Env c8Ctx c8Tokens 0 {} =
        (false, c8Env, {})) ∧
    ((c8MacroCode.macroImpl "my-macro" c8Env c8Ctx c8Tokens 0).1 = true →
      (c8MacroCode.macroImpl "my-macro" c8Env c8Ctx c8Tokens 0).2 ≠ [] →
      validateParentheses (c8MacroCode.macroImpl "my-macro" c8Env c8Ctx c8Tokens 0).2
        = true →
      HandleInvocation_Recursive c8MacroCode (4 + 1) c8Env c8Ctx c8Tokens 0 {} =
        ((EvaluateGenerateAll_Recursive c8MacroCode 4
            { c8Env with macroExpansions := c8Env.macroExpansions ++
                [(c8MacroCode.macroImpl "my-macro" c8Env c8Ctx c8Tokens 0).2] }
            c8Ctx (c8MacroCode.macroImpl "my-macro" c8Env c8Ctx c8Tokens 0).2 0
            none {}).1 == 0,
         (EvaluateGenerateAll_Recursive c8MacroCode 4
            { c8Env with macroExpansions := c8Env.macroExpansions ++
                [(c8MacroCode.macroImpl "my-macro" c8Env c8Ctx c8Tokens 0).2] }
            c8Ctx (c8MacroCode.macroImpl "my-macro" c8Env c8Ctx c8Tokens 0).2 0
            none {}).2.1,
         (EvaluateGenerateAll_Recursive c8MacroCode 4
            { c8Env with macroExpansions := c8Env.macroExpansions ++
                [(c8MacroCode.macroImpl "my-macro" c8Env c8Ctx c8Tokens 0).2] }
            c8Ctx (c8MacroCode.macroImpl "my-macro" c8Env c8Ctx c8Tokens 0).2 0
            none {}).2.2) ∧
      (c8MacroCode.macroImpl "my-macro" c8Env c8Ctx c8Tokens 0).2 ∈
        (HandleInvocation_Recursive c8MacroCode (4 + 1) c8Env c8Ctx c8Tokens 0
          {}).2.1.macroExpansions)) :=
  ⟨⟨rfl, rfl, rfl, rfl⟩,
   c8_macro_dispatch c8MacroCode 4 c8Env c8Ctx c8Tokens 0 {}
     { type := TokenType.TokenType_OpenParen, contents := "(" }
     { type := TokenType.TokenType_Symbol, contents := "my-macro" }
     rfl rfl rfl rfl⟩

/-- C10: a macro invocation that succeeds with zero output tokens returns
true, emits no output fragments, and the empty token vector is freed rather
than transferred to the expansion arenas (environment and output are both
returned unchanged); consequently — as the second half states for every
evaluation — the expansion arenas only ever contain non-empty expansions
that passed parenthesis validation. -/
theorem c10_empty_expansion (code : ExternalCode) (fuel : Nat)
    (env : EvaluatorEnvironment) (ctx : EvaluatorContext) (tokens : List Token)
    (i : Nat) (out : GeneratorOutput) (invocationStart invocationName : Token)
    (h1 : tokens[i]? = some invocationStart)
    (h2 : tokens[i + 1]? = some invocationName)
    (hsym : invocationName.type = TokenType.TokenType_Symbol)
    (hmac : findMacro env invocationName.contents = true)
    (hok : (code.macroImpl invocationName.contents env ctx tokens i).1 = true)
    (hempty : (code.macroImpl invocationName.contents env ctx tokens i).2 = []) :
    HandleInvocation_Recursive code (fuel + 1) env ctx tokens i out =
      (true, env, out) ∧
    ∀ fuel1 env1 ctx1 tokens1 i1 out1,
      (∀ e ∈ env1.macroExpansions, e ≠ [] ∧ validateParentheses e = true) →
      ∀ e ∈ (HandleInvocation_Recursive code fuel1 env1 ctx1 tokens1 i1
          out1).2.1.macroExpansions,
        e ≠ [] ∧ validateParentheses e = true := by
  constructor
  · have hpath := HandleInvocation_macro_path code fuel env ctx tokens i out
      invocationStart invocationName h1 h2 hsym hmac
    rw [hpath, if_neg (by rw [hok]; exact fun hc => Bool.noConfusion hc),
      if_pos (by rw [hempty]; rfl)]
  · intro fuel1 env1 ctx1 tokens1 i1 out1 hinv e he
    obtain ⟨suffix, hs, hv⟩ := (evaluator_expansions_ok code fuel1).1
      env1 ctx1 tokens1 i1 out1
    rw [hs] at he
    rcases List.mem_append.mp he with he | he
    · exact hinv e he
    · exact hv e he

def c10Env : EvaluatorEnvironment := { macros := ["noop"] }

def c10Tokens : List Token :=
  [{ type := TokenType.TokenType_OpenParen, contents := "(" },
   { type := TokenType.TokenType_Symbol, contents := "noop" },
   { type := TokenType.TokenType_CloseParen, contents := ")" }]

theorem c10_empty_expansion_witness :
    (c10Tokens[0]? = some { type := TokenType.TokenType_OpenParen, contents := "(" } ∧
      c10Tokens[0 + 1]? =
        some { type := TokenType.TokenType_Symbol, contents := "noop" } ∧
      ({ type := TokenType.TokenType_Symbol,
         contents := "noop" } : Token).type = TokenType.TokenType_Symbol ∧
      findMacro c10Env "noop" = true ∧
      (trivialExternalCode.macroImpl "noop" c10Env c8Ctx c10Tokens 0).1 = true ∧
      (trivialExternalCode.macroImpl "noop" c10Env c8Ctx c10Tokens 0).2 = []) ∧
    (HandleInvocation_Recursive trivialExternalCode (4 + 1) c10Env c8Ctx c10Tokens 0 {} =
      (true, c10Env, {}) ∧
    ∀ fuel1 env1 ctx1 tokens1 i1 out1,
      (∀ e ∈ env1.macroExpansions, e ≠ [] ∧ validateParentheses e = true) →
      ∀ e ∈ (HandleInvocation_Recursive trivialExternalCode fuel1 env1 ctx1 tokens1 i1
          out1).2.1.macroExpansions,
        e ≠ [] ∧ validateParentheses e = true) :=
  ⟨⟨rfl, rfl, rfl, rfl, rfl, rfl⟩,
   c10_empty_expansion trivialExternalCode 4 c10Env c8Ctx c10Tokens 0 {}
     { type := TokenType.TokenType_OpenParen, contents := "(" }
     { type := TokenType.TokenType_Symbol, contents := "noop" }
     rfl rfl rfl rfl rfl rfl⟩

--
-- C5: requirement propagation is the transitive closure
--

/-- The transitive closure of the initially-required definitions over
ReferenceStatus edges, restricted to names present in the definitions map
(the code only marks definitions it finds). -/
inductive RequiredClosure (defs : List (String × ObjectDefinition)) : String → Prop where
  | init (n : String) (d : ObjectDefinition) :
      findDef defs n = some d → d.isRequired = true → RequiredClosure defs n
  | step (a b : String) (d db : ObjectDefinition) (pair : String × ObjectReferenceStatus) :
      RequiredClosure defs a → findDef defs a = some d → pair ∈ d.references →
      pair.2.name = b → findDef defs b = some db → RequiredClosure defs b

/-- The closure the spec describes: reachability from the module root (the
implicit global definition) over ReferenceStatus edges. -/
inductive ReachableFromRoot (defs : List (String × ObjectDefinition)) : String → Prop where
  | root (d : ObjectDefinition) :
      findDef defs globalDefinitionName = some d →
      ReachableFromRoot defs globalDefinitionName
  | step (a b : String) (d db : ObjectDefinition) (pair : String × ObjectReferenceStatus) :
      ReachableFromRoot defs a → findDef defs a = some d → pair ∈ d.references →
      pair.2.name = b → findDef defs b = some db → ReachableFromRoot defs b

theorem setRequired_findDef (defs : List (String × ObjectDefinition)) (t n : String) :
    findDef (setRequired defs t) n =
      if n = t then (findDef defs n).map (fun d => { d with isRequired := true })
      else findDef defs n := by
  unfold setRequired findDef
  exact findAssoc_update defs t n (fun d => { d with isRequired := true })

/-- The invariant carried through propagation: the reference structure is
untouched, required definitions only accumulate, and every required
definition lies in the closure of the initially-required set. -/
def PropInv (defs0 cur : List (String × ObjectDefinition)) : Prop :=
  (∀ n, (findDef cur n).map ObjectDefinition.references =
        (findDef defs0 n).map ObjectDefinition.references) ∧
  (∀ n d0, findDef defs0 n = some d0 → d0.isRequired = true →
    ∃ d', findDef cur n = some d' ∧ d'.isRequired = true) ∧
  (∀ n d', findDef cur n = some d' → d'.isRequired = true → RequiredClosure defs0 n)

theorem propInv_init (defs0 : List (String × ObjectDefinition)) : PropInv defs0 defs0 :=
  ⟨fun _ => rfl, fun _ d0 h hr => ⟨d0, h, hr⟩,
   fun n d' h hr => RequiredClosure.init n d' h hr⟩

theorem propInv_setRequired (defs0 cur : List (String × ObjectDefinition))
    (t : String) (target : ObjectDefinition)
    (_ht : findDef cur t = some target)
    (hclo : RequiredClosure defs0 t)
    (hinv : PropInv defs0 cur) : PropInv defs0 (setRequired cur t) := by
  obtain ⟨hrefs, hmono, hsound⟩ := hinv
  refine ⟨?_, ?_, ?_⟩
  · intro n
    rw [setRequired_findDef]
    by_cases hn : n = t
    · rw [if_pos hn, ← hrefs n]
      cases findDef cur n <;> rfl
    · rw [if_neg hn]
      exact hrefs n
  · intro n d0 h hr
    obtain ⟨d', hd', hdr⟩ := hmono n d0 h hr
    rw [setRequired_findDef]
    by_cases hn : n = t
    · rw [if_pos hn, hd']
      exact ⟨_, rfl, rfl⟩
    · rw [if_neg hn]
      exact ⟨d', hd', hdr⟩
  · intro n d' h hr
    rw [setRequired_findDef] at h
    by_cases hn : n = t
    · rw [hn]
      exact hclo
    · rw [if_neg hn] at h
      exact hsound n d' h hr

theorem propagateRefStep_none (acc : List (String × ObjectDefinition) × Nat)
    (pair : String × ObjectReferenceStatus)
    (h : findDef acc.1 pair.2.name = none) : propagateRefStep acc pair = acc := by
  unfold propagateRefStep
  simp only [h]

theorem propagateRefStep_required (acc : List (String × ObjectDefinition) × Nat)
    (pair : String × ObjectReferenceStatus) (target : ObjectDefinition)
    (h : findDef acc.1 pair.2.name = some target) (hr : target.isRequired = true) :
    propagateRefStep acc pair = acc := by
  unfold propagateRefStep
  simp only [h]
  rw [if_pos hr]

theorem propagateRefStep_set (acc : List (String × ObjectDefinition) × Nat)
    (pair : String × ObjectReferenceStatus) (target : ObjectDefinition)
    (h : findDef acc.1 pair.2.name = some target) (hr : target.isRequired = false) :
    propagateRefStep acc pair = (setRequired acc.1 pair.2.name, acc.2 + 1) := by
  unfold propagateRefStep
  simp only [h]
  rw [if_neg (by rw [hr]; exact fun hc => Bool.noConfusion hc)]

theorem propagateRefStep_inv (defs0 : List (String × ObjectDefinition))
    (dname : String) (d0 : ObjectDefinition)
    (hd0 : findDef defs0 dname = some d0)
    (hreach : RequiredClosure defs0 dname)
    (acc : List (String × ObjectDefinition) × Nat)
    (pair : String × ObjectReferenceStatus) (hpair : pair ∈ d0.references)
    (hinv : PropInv defs0 acc.1) : PropInv defs0 (propagateRefStep acc pair).1 := by
  cases hft : findDef acc.1 pair.2.name with
  | none =>
    rw [propagateRefStep_none acc pair hft]
    exact hinv
  | some target =>
    cases hr : target.isRequired with
    | true =>
      rw [propagateRefStep_required acc pair target hft hr]
      exact hinv
    | false =>
      rw [propagateRefStep_set acc pair target hft hr]
      have hdb : ∃ db, findDef defs0 pair.2.name = some db := by
        have hmm := hinv.1 pair.2.name
        rw [hft] at hmm
        cases hfd : findDef defs0 pair.2.name
        · rw [hfd] at hmm
          exact absurd hmm (by simp)
        · exact ⟨_, rfl⟩
      obtain ⟨db, hdb⟩ := hdb
      exact propInv_setRequired defs0 acc.1 pair.2.name target hft
        (RequiredClosure.step dname pair.2.name d0 db pair hreach hd0 hpair rfl hdb)
        hinv

theorem propagateRefFold_inv (defs0 : List (String × ObjectDefinition))
    (dname : String) (d0 : ObjectDefinition)
    (hd0 : findDef defs0 dname = some d0)
    (hreach : RequiredClosure defs0 dname)
    (l : List (String × ObjectReferenceStatus)) (hl : ∀ pair ∈ l, pair ∈ d0.references)
    (acc : List (String × ObjectDefinition) × Nat)
    (hinv : PropInv defs0 acc.1) : PropInv defs0 (l.foldl propagateRefStep acc).1 := by
  induction l generalizing acc with
  | nil => exact hinv
  | cons pair rest ih =>
    simp only [List.foldl_cons]
    exact ih (fun q hq => hl q (List.mem_cons_of_mem _ hq)) _
      (propagateRefStep_inv defs0 dname d0 hd0 hreach acc pair
        (hl pair (List.mem_cons_self _ _)) hinv)

theorem propagateReferencesOf_eq_none (defs : List (String × ObjectDefinition))
    (dname : String) (h : findDef defs dname = none) :
    propagateReferencesOf defs dname = (defs, 0) := by
  unfold propagateReferencesOf
  simp only [h]

theorem propagateReferencesOf_eq_notRequired (defs : List (String × ObjectDefinition))
    (dname : String) (d : ObjectDefinition) (h : findDef defs dname = some d)
    (hr : d.isRequired = false) : propagateReferencesOf defs dname = (defs, 0) := by
  unfold propagateReferencesOf
  simp only [h]
  rw [if_neg (by rw [hr]; exact fun hc => Bool.noConfusion hc)]

theorem propagateReferencesOf_eq_required (defs : List (String × ObjectDefinition))
    (dname : String) (d : ObjectDefinition) (h : findDef defs dname = some d)
    (hr : d.isRequired = true) :
    propagateReferencesOf defs dname = d.references.foldl propagateRefStep (defs, 0) := by
  unfold propagateReferencesOf
  simp only [h]
  rw [if_pos hr]

theorem propagateReferencesOf_inv (defs0 cur : List (String × ObjectDefinition))
    (dname : String) (hinv : PropInv defs0 cur) :
    PropInv defs0 (propagateReferencesOf cur dname).1 := by
  cases hfd : findDef cur dname with
  | none =>
    rw [propagateReferencesOf_eq_none cur dname hfd]
    exact hinv
  | some d =>
    cases hr : d.isRequired with
    | false =>
      rw [propagateReferencesOf_eq_notRequired cur dname d hfd hr]
      exact hinv
    | true =>
      rw [propagateReferencesOf_eq_required cur dname d hfd hr]
      have hreach : RequiredClosure defs0 dname := hinv.2.2 dname d hfd hr
      have hd0 : ∃ d0, findDef defs0 dname = some d0 ∧ d0.references = d.references := by
        have hmm := hinv.1 dname
        rw [hfd] at hmm
        cases hfd0 : findDef defs0 dname
        · rw [hfd0] at hmm
          exact absurd hmm (by simp)
        · rw [hfd0] at hmm
          simp only [Option.map_some'] at hmm
          exact ⟨_, rfl, ((Option.some.injEq _ _).mp hmm).symm⟩
      obtain ⟨d0, hd0, hdrefs⟩ := hd0
      refine propagateRefFold_inv defs0 dname d0 hd0 hreach d.references ?_ (cur, 0) hinv
      intro pair hpair
      rw [hdrefs]
      exact hpair

theorem propagateSweep_inv (defs0 _cur : List (String × ObjectDefinition))
    (names : List String) (acc : List (String × ObjectDefinition) × Nat)
    (hinv : PropInv defs0 acc.1) :
    PropInv defs0 (names.foldl propagateSweepStep acc).1 := by
  induction names generalizing acc with
  | nil => exact hinv
  | cons n rest ih =>
    simp only [List.foldl_cons]
    exact ih _ (propagateReferencesOf_inv defs0 acc.1 n hinv)

theorem propagateLoopFuel_inv (defs0 : List (String × ObjectDefinition))
    (fuel : Nat) (cur : List (String × ObjectDefinition))
    (hinv : PropInv defs0 cur) : PropInv defs0 (propagateLoopFuel fuel cur) := by
  induction fuel generalizing cur with
  | zero => exact hinv
  | succ fuel ih =>
    simp only [propagateLoopFuel]
    by_cases hz : (propagateSweep cur).2 = 0
    · rw [if_pos hz]
      exact propagateSweep_inv defs0 cur (cur.map Prod.fst) (cur, 0) hinv
    · rw [if_neg hz]
      exact ih _ (propagateSweep_inv defs0 cur (cur.map Prod.fst) (cur, 0) hinv)

--
-- Counting: each productive sweep strictly grows the required set
--

def reqCount (defs : List (String × ObjectDefinition)) : Nat :=
  defs.countP fun p => p.2.isRequired

theorem reqCount_le_length (defs : List (String × ObjectDefinition)) :
    reqCount defs ≤ defs.length :=
  List.countP_le_length _

theorem setRequired_length (defs : List (String × ObjectDefinition)) (t : String) :
    (setRequired defs t).length = defs.length := by
  simp [setRequired]

theorem setRequired_cons (p : String × ObjectDefinition)
    (rest : List (String × ObjectDefinition)) (t : String) :
    setRequired (p :: rest) t =
      (if p.1 = t then (p.1, { p.2 with isRequired := true }) else p) :: setRequired rest t := by
  unfold setRequired
  rw [List.map_cons]

theorem reqCount_cons (p : String × ObjectDefinition)
    (rest : List (String × ObjectDefinition)) :
    reqCount (p :: rest) = reqCount rest + (if p.2.isRequired then 1 else 0) := by
  unfold reqCount
  rw [List.countP_cons]

theorem setRequired_reqCount_mono (defs : List (String × ObjectDefinition))
    (t : String) : reqCount defs ≤ reqCount (setRequired defs t) := by
  induction defs with
  | nil => exact Nat.le_refl _
  | cons p rest ih =>
    rw [setRequired_cons, reqCount_cons, reqCount_cons]
    by_cases ht : p.1 = t
    · rw [if_pos ht]
      have hh : ((p.1, { p.2 with isRequired := true }) : String × ObjectDefinition).2.isRequired
          = true := rfl
      rw [if_pos hh]
      cases p.2.isRequired with
      | false =>
        rw [if_neg (fun hc : false = true => Bool.noConfusion hc)]
        omega
      | true =>
        rw [if_pos rfl]
        omega
    · rw [if_neg ht]
      cases p.2.isRequired with
      | false =>
        rw [if_neg (fun hc : false = true => Bool.noConfusion hc)]
        omega
      | true =>
        rw [if_pos rfl]
        omega

theorem setRequired_reqCount_strict (defs : List (String × ObjectDefinition))
    (t : String) (target : ObjectDefinition)
    (h : findDef defs t = some target) (hr : target.isRequired = false) :
    reqCount defs < reqCount (setRequired defs t) := by
  induction defs with
  | nil => simp [findDef, findAssoc] at h
  | cons p rest ih =>
    rw [setRequired_cons, reqCount_cons, reqCount_cons]
    unfold findDef findAssoc at h
    by_cases ht : p.1 = t
    · rw [if_pos ht] at h ⊢
      injection h with h
      have hh : ((p.1, { p.2 with isRequired := true }) : String × ObjectDefinition).2.isRequired
          = true := rfl
      rw [if_pos hh]
      have hpr : p.2.isRequired = false := by rw [h]; exact hr
      rw [if_neg (by rw [hpr]; exact fun hc => Bool.noConfusion hc)]
      have hmono := setRequired_reqCount_mono rest t
      omega
    · rw [if_neg ht] at h ⊢
      have hstep := ih h
      cases p.2.isRequired with
      | false =>
        rw [if_neg (fun hc : false = true => Bool.noConfusion hc)]
        omega
      | true =>
        rw [if_pos rfl]
        omega

theorem propagateRefStep_cases (acc : List (String × ObjectDefinition) × Nat)
    (pair : String × ObjectReferenceStatus) :
    propagateRefStep acc pair = acc ∨
    ∃ target, findDef acc.1 pair.2.name = some target ∧ target.isRequired = false ∧
      propagateRefStep acc pair = (setRequired acc.1 pair.2.name, acc.2 + 1) := by
  cases hft : findDef acc.1 pair.2.name with
  | none => exact Or.inl (propagateRefStep_none acc pair hft)
  | some target =>
    cases hr : target.isRequired with
    | true => exact Or.inl (propagateRefStep_required acc pair target hft hr)
    | false => exact Or.inr ⟨target, rfl, hr, propagateRefStep_set acc pair target hft hr⟩

theorem propagateRefFold_count_mono (l : List (String × ObjectReferenceStatus))
    (acc : List (String × ObjectDefinition) × Nat) :
    acc.2 ≤ (l.foldl propagateRefStep acc).2 := by
  induction l generalizing acc with
  | nil => exact Nat.le_refl _
  | cons pair rest ih =>
    simp only [List.foldl_cons]
    rcases propagateRefStep_cases acc pair with heq | ⟨target, _, _, heq⟩
    · rw [heq]
      exact ih acc
    · rw [heq]
      have := ih (setRequired acc.1 pair.2.name, acc.2 + 1)
      omega

theorem propagateRefFold_reqCount (l : List (String × ObjectReferenceStatus))
    (acc : List (String × ObjectDefinition) × Nat) :
    reqCount acc.1 + (l.foldl propagateRefStep acc).2 ≤
      reqCount (l.foldl propagateRefStep acc).1 + acc.2 := by
  induction l generalizing acc with
  | nil => exact Nat.le_refl _
  | cons pair rest ih =>
    simp only [List.foldl_cons]
    rcases propagateRefStep_cases acc pair with heq | ⟨target, hft, hr, heq⟩
    · rw [heq]
      exact ih acc
    · rw [heq]
      have h1 := setRequired_reqCount_strict acc.1 pair.2.name target hft hr
      have h2 := ih (setRequired acc.1 pair.2.name, acc.2 + 1)
      simp only at h2
      omega

theorem propagateRefFold_zero (l : List (String × ObjectReferenceStatus))
    (acc : List (String × ObjectDefinition) × Nat)
    (h : (l.foldl propagateRefStep acc).2 = acc.2) :
    l.foldl propagateRefStep acc = acc := by
  induction l generalizing acc with
  | nil => rfl
  | cons pair rest ih =>
    simp only [List.foldl_cons] at h ⊢
    rcases propagateRefStep_cases acc pair with heq | ⟨target, hft, hr, heq⟩
    · rw [heq] at h ⊢
      exact ih acc h
    · rw [heq] at h
      have := propagateRefFold_count_mono rest (setRequired acc.1 pair.2.name, acc.2 + 1)
      simp only at this
      omega

theorem propagateRefFold_length (l : List (String × ObjectReferenceStatus))
    (acc : List (String × ObjectDefinition) × Nat) :
    (l.foldl propagateRefStep acc).1.length = acc.1.length := by
  induction l generalizing acc with
  | nil => rfl
  | cons pair rest ih =>
    simp only [List.foldl_cons]
    rcases propagateRefStep_cases acc pair with heq | ⟨target, _, _, heq⟩
    · rw [heq]
      exact ih acc
    · rw [heq]
      rw [ih (setRequired acc.1 pair.2.name, acc.2 + 1)]
      simp only
      exact setRequired_length acc.1 pair.2.name

theorem propagateReferencesOf_reqCount (defs : List (String × ObjectDefinition))
    (dname : String) :
    reqCount defs + (propagateReferencesOf defs dname).2 ≤
      reqCount (propagateReferencesOf defs dname).1 := by
  cases hfd : findDef defs dname with
  | none =>
    rw [propagateReferencesOf_eq_none defs dname hfd]
    exact Nat.le_refl _
  | some d =>
    cases hr : d.isRequired with
    | false =>
      rw [propagateReferencesOf_eq_notRequired defs dname d hfd hr]
      exact Nat.le_refl _
    | true =>
      rw [propagateReferencesOf_eq_required defs dname d hfd hr]
      have := propagateRefFold_reqCount d.references (defs, 0)
      simpa using this

theorem propagateReferencesOf_zero (defs : List (String × ObjectDefinition))
    (dname : String) (h : (propagateReferencesOf defs dname).2 = 0) :
    (propagateReferencesOf defs dname).1 = defs := by
  cases hfd : findDef defs dname with
  | none => rw [propagateReferencesOf_eq_none defs dname hfd]
  | some d =>
    cases hr : d.isRequired with
    | false => rw [propagateReferencesOf_eq_notRequired defs dname d hfd hr]
    | true =>
      rw [propagateReferencesOf_eq_required defs dname d hfd hr] at h ⊢
      have := propagateRefFold_zero d.references (defs, 0) (by simpa using h)
      rw [this]

theorem propagateReferencesOf_length (defs : List (String × ObjectDefinition))
    (dname : String) :
    (propagateReferencesOf defs dname).1.length = defs.length := by
  cases hfd : findDef defs dname with
  | none => rw [propagateReferencesOf_eq_none defs dname hfd]
  | some d =>
    cases hr : d.isRequired with
    | false => rw [propagateReferencesOf_eq_notRequired defs dname d hfd hr]
    | true =>
      rw [propagateReferencesOf_eq_required defs dname d hfd hr]
      exact propagateRefFold_length d.references (defs, 0)

theorem propagateSweepStep_fst (acc : List (String × ObjectDefinition) × Nat)
    (n : String) : (propagateSweepStep acc n).1 = (propagateReferencesOf acc.1 n).1 := rfl

theorem propagateSweepStep_snd (acc : List (String × ObjectDefinition) × Nat)
    (n : String) : (propagateSweepStep acc n).2 = acc.2 + (propagateReferencesOf acc.1 n).2 := rfl

theorem sweepFold_count_mono (names : List String)
    (acc : List (String × ObjectDefinition) × Nat) :
    acc.2 ≤ (names.foldl propagateSweepStep acc).2 := by
  induction names generalizing acc with
  | nil => exact Nat.le_refl _
  | cons n rest ih =>
    simp only [List.foldl_cons]
    have h1 := ih (propagateSweepStep acc n)
    have h2 := propagateSweepStep_snd acc n
    omega

theorem sweepFold_reqCount (names : List String)
    (acc : List (String × ObjectDefinition) × Nat) :
    reqCount acc.1 + (names.foldl propagateSweepStep acc).2 ≤
      reqCount (names.foldl propagateSweepStep acc).1 + acc.2 := by
  induction names generalizing acc with
  | nil => exact Nat.le_refl _
  | cons n rest ih =>
    simp only [List.foldl_cons]
    have h1 := propagateReferencesOf_reqCount acc.1 n
    have h2 := ih (propagateSweepStep acc n)
    have h3 := propagateSweepStep_snd acc n
    have h4 : reqCount (propagateSweepStep acc n).1 =
        reqCount (propagateReferencesOf acc.1 n).1 := by
      rw [propagateSweepStep_fst]
    omega

theorem sweepFold_zero (names : List String)
    (acc : List (String × ObjectDefinition) × Nat)
    (h : (names.foldl propagateSweepStep acc).2 = acc.2) :
    names.foldl propagateSweepStep acc = acc := by
  induction names generalizing acc with
  | nil => rfl
  | cons n rest ih =>
    simp only [List.foldl_cons] at h ⊢
    have hmono := sweepFold_count_mono rest (propagateSweepStep acc n)
    have h3 := propagateSweepStep_snd acc n
    have hzero : (propagateReferencesOf acc.1 n).2 = 0 := by omega
    have hdefs := propagateReferencesOf_zero acc.1 n hzero
    have hstep : propagateSweepStep acc n = acc := by
      unfold propagateSweepStep
      rw [hdefs, hzero]
      exact Prod.ext rfl (Nat.add_zero _)
    rw [hstep] at h ⊢
    exact ih acc h

theorem sweepFold_length (names : List String)
    (acc : List (String × ObjectDefinition) × Nat) :
    (names.foldl propagateSweepStep acc).1.length = acc.1.length := by
  induction names generalizing acc with
  | nil => rfl
  | cons n rest ih =>
    simp only [List.foldl_cons]
    rw [ih (propagateSweepStep acc n), propagateSweepStep_fst]
    exact propagateReferencesOf_length acc.1 n

theorem propagateSweep_reqCount (defs : List (String × ObjectDefinition)) :
    reqCount defs + (propagateSweep defs).2 ≤ reqCount (propagateSweep defs).1 := by
  have := sweepFold_reqCount (defs.map Prod.fst) (defs, 0)
  unfold propagateSweep
  simpa using this

theorem propagateSweep_zero (defs : List (String × ObjectDefinition))
    (h : (propagateSweep defs).2 = 0) : (propagateSweep defs).1 = defs := by
  unfold propagateSweep at h ⊢
  rw [sweepFold_zero (defs.map Prod.fst) (defs, 0) (by simpa using h)]

theorem propagateSweep_length (defs : List (String × ObjectDefinition)) :
    (propagateSweep defs).1.length = defs.length := by
  unfold propagateSweep
  exact sweepFold_length (defs.map Prod.fst) (defs, 0)

theorem propagateLoopFuel_fix (fuel : Nat) (defs : List (String × ObjectDefinition))
    (h : defs.length + 1 ≤ fuel + reqCount defs) :
    (propagateSweep (propagateLoopFuel fuel defs)).2 = 0 := by
  induction fuel generalizing defs with
  | zero =>
    exfalso
    have := reqCount_le_length defs
    omega
  | succ fuel ih =>
    simp only [propagateLoopFuel]
    by_cases hz : (propagateSweep defs).2 = 0
    · rw [if_pos hz]
      rw [propagateSweep_zero defs hz]
      exact hz
    · rw [if_neg hz]
      apply ih
      have h1 := propagateSweep_reqCount defs
      have h2 := propagateSweep_length defs
      omega

--
-- Fixed point: when a sweep flips nothing, every edge out of a required
-- definition already points at a required definition
--

theorem sweepFold_all_zero (S : List (String × ObjectDefinition)) (names : List String)
    (h : (names.foldl propagateSweepStep (S, 0)).2 = 0) :
    ∀ n ∈ names, propagateReferencesOf S n = (S, 0) := by
  induction names with
  | nil =>
    intro n hn
    exact absurd hn (List.not_mem_nil _)
  | cons m rest ih =>
    simp only [List.foldl_cons] at h
    have hsnd : (propagateSweepStep (S, 0) m).2 = 0 + (propagateReferencesOf S m).2 :=
      propagateSweepStep_snd (S, 0) m
    have hmono := sweepFold_count_mono rest (propagateSweepStep (S, 0) m)
    have hz : (propagateReferencesOf S m).2 = 0 := by omega
    have hfst : (propagateReferencesOf S m).1 = S := propagateReferencesOf_zero S m hz
    have hm : propagateReferencesOf S m = (S, 0) := Prod.ext hfst hz
    have hstep : propagateSweepStep (S, 0) m = (S, 0) := by
      show ((propagateReferencesOf S m).1, 0 + (propagateReferencesOf S m).2) = (S, 0)
      rw [hfst, hz]
    rw [hstep] at h
    intro n hn
    rcases List.mem_cons.mp hn with heq | hmem
    · rw [heq]
      exact hm
    · exact ih h n hmem

theorem innerFold_zero_targets (S : List (String × ObjectDefinition))
    (l : List (String × ObjectReferenceStatus))
    (h : (l.foldl propagateRefStep (S, 0)).2 = 0) :
    ∀ pair ∈ l, ∀ db, findDef S pair.2.name = some db → db.isRequired = true := by
  induction l with
  | nil =>
    intro pair hp
    exact absurd hp (List.not_mem_nil _)
  | cons q rest ih =>
    simp only [List.foldl_cons] at h
    cases hft : findDef S q.2.name with
    | none =>
      rw [propagateRefStep_none (S, 0) q hft] at h
      intro pair hp db hdb
      rcases List.mem_cons.mp hp with heq | hmem
      · rw [heq] at hdb
        rw [hft] at hdb
        exact Option.noConfusion hdb
      · exact ih h pair hmem db hdb
    | some target =>
      cases hr : target.isRequired with
      | true =>
        rw [propagateRefStep_required (S, 0) q target hft hr] at h
        intro pair hp db hdb
        rcases List.mem_cons.mp hp with heq | hmem
        · rw [heq] at hdb
          rw [hft] at hdb
          injection hdb with hdb
          rw [← hdb]
          exact hr
        · exact ih h pair hmem db hdb
      | false =>
        exfalso
        rw [propagateRefStep_set (S, 0) q target hft hr] at h
        have h2 : (rest.foldl propagateRefStep (setRequired S q.2.name, 1)).2 = 0 := h
        have hm : 1 ≤ (rest.foldl propagateRefStep (setRequired S q.2.name, 1)).2 := by
          have := propagateRefFold_count_mono rest (setRequired S q.2.name, 1)
          exact this
        omega

theorem fixpoint_closed (S : List (String × ObjectDefinition))
    (h : (propagateSweep S).2 = 0) (a : String) (d : ObjectDefinition)
    (hfd : findDef S a = some d) (hr : d.isRequired = true) :
    ∀ pair ∈ d.references, ∀ db, findDef S pair.2.name = some db →
      db.isRequired = true := by
  have h2 : ((S.map Prod.fst).foldl propagateSweepStep (S, 0)).2 = 0 := h
  have ha : a ∈ S.map Prod.fst := List.mem_map_of_mem Prod.fst (findAssoc_mem hfd)
  have hall := sweepFold_all_zero S (S.map Prod.fst) h2 a ha
  rw [propagateReferencesOf_eq_required S a d hfd hr] at hall
  have hz : (d.references.foldl propagateRefStep (S, 0)).2 = 0 := by rw [hall]
  exact innerFold_zero_targets S d.references hz

theorem closure_required_at_fixpoint (defs0 final : List (String × ObjectDefinition))
    (hinv : PropInv defs0 final) (hfix : (propagateSweep final).2 = 0) :
    ∀ n, RequiredClosure defs0 n →
      ∃ d', findDef final n = some d' ∧ d'.isRequired = true := by
  intro n hclo
  induction hclo with
  | init m d hm hr => exact hinv.2.1 m d hm hr
  | step a b d db pair hreach hfd hpair hname hdb ih =>
    obtain ⟨da, hda, hdar⟩ := ih
    have hrefs := hinv.1 a
    rw [hfd, hda] at hrefs
    injection hrefs with hrefs
    have hdbf : ∃ dbx, findDef final b = some dbx := by
      have h2 := hinv.1 b
      rw [hdb] at h2
      cases hfb : findDef final b with
      | none =>
        rw [hfb] at h2
        exact Option.noConfusion h2
      | some dbx => exact ⟨dbx, rfl⟩
    obtain ⟨dbx, hdbx⟩ := hdbf
    refine ⟨dbx, hdbx, ?_⟩
    subst hname
    exact fixpoint_closed final hfix a da hda hdar pair (by rw [hrefs]; exact hpair)
      dbx hdbx

theorem closure_iff_root (defs : List (String × ObjectDefinition))
    (hseed : ∀ n d, findDef defs n = some d →
      (d.isRequired = true ↔ n = globalDefinitionName)) :
    ∀ n, RequiredClosure defs n ↔ ReachableFromRoot defs n := by
  intro n
  constructor
  · intro h
    induction h with
    | init m d hfd hr =>
      have hm := (hseed m d hfd).mp hr
      rw [hm] at hfd ⊢
      exact ReachableFromRoot.root d hfd
    | step a b d db pair hreach hfd hpair hname hdb ih =>
      exact ReachableFromRoot.step a b d db pair ih hfd hpair hname hdb
  · intro h
    induction h with
    | root d hfd =>
      exact RequiredClosure.init _ d hfd ((hseed _ d hfd).mpr rfl)
    | step a b d db pair hreach hfd hpair hname hdb ih =>
      exact RequiredClosure.step a b d db pair ih hfd hpair hname hdb

/-- C5: when PropagateRequiredToReferences returns (on a definitions map where
the implicit module root is the only initially required definition), the loop
has reached a fixed point (one more sweep performs zero transitions), and a
definition in the resulting map is marked isRequired exactly when it is in the
transitive closure of the ReferenceStatus edges seeded by the `<global>`
root definition. -/
theorem c5_required_closure (defs : List (String × ObjectDefinition))
    (hseed : defs.all
      (fun p => p.2.isRequired == decide (p.1 = globalDefinitionName)) = true) :
    (propagateSweep (PropagateRequiredToReferences defs)).2 = 0 ∧
    ∀ n d', findDef (PropagateRequiredToReferences defs) n = some d' →
      (d'.isRequired = true ↔ ReachableFromRoot defs n) := by
  have hseed2 : ∀ n d, findDef defs n = some d →
      (d.isRequired = true ↔ n = globalDefinitionName) := by
    intro n d hfd
    have hmem : (n, d) ∈ defs := findAssoc_mem hfd
    have hall : d.isRequired = decide (n = globalDefinitionName) := by
      have := List.all_eq_true.mp hseed _ hmem
      simpa using this
    constructor
    · intro hr
      rw [hr] at hall
      exact of_decide_eq_true hall.symm
    · intro hn
      rw [hall, hn]
      simp
  have hfix : (propagateSweep (PropagateRequiredToReferences defs)).2 = 0 := by
    unfold PropagateRequiredToReferences
    exact propagateLoopFuel_fix (defs.length + 1) defs (by omega)
  have hinv : PropInv defs (PropagateRequiredToReferences defs) := by
    unfold PropagateRequiredToReferences
    exact propagateLoopFuel_inv defs (defs.length + 1) defs (propInv_init defs)
  refine ⟨hfix, ?_⟩
  intro n d' hfd
  constructor
  · intro hr
    exact (closure_iff_root defs hseed2 n).mp (hinv.2.2 n d' hfd hr)
  · intro hreach
    obtain ⟨d2, hd2, hr2⟩ := closure_required_at_fixpoint defs
      (PropagateRequiredToReferences defs) hinv hfix n
      ((closure_iff_root defs hseed2 n).mpr hreach)
    rw [hfd] at hd2
    injection hd2 with hx
    rw [hx]
    exact hr2

/-- Concrete run of c5_required_closure: a root with one reference chain and
one orphan definition. -/
def c5Defs : List (String × ObjectDefinition) :=
  [(globalDefinitionName,
    { name := globalDefinitionName, type := ObjectType.ObjectType_Function,
      isRequired := true, references := [("a", { name := "a" })] }),
   ("a",
    { name := "a", type := ObjectType.ObjectType_Function,
      references := [("b", { name := "b" })] }),
   ("b", { name := "b", type := ObjectType.ObjectType_Function }),
   ("orphan", { name := "orphan", type := ObjectType.ObjectType_Function })]

theorem c5_required_closure_witness :
    (c5Defs.all
      (fun p => p.2.isRequired == decide (p.1 = globalDefinitionName)) = true) ∧
    ((propagateSweep (PropagateRequiredToReferences c5Defs)).2 = 0 ∧
    ∀ n d', findDef (PropagateRequiredToReferences c5Defs) n = some d' →
      (d'.isRequired = true ↔ ReachableFromRoot c5Defs n)) :=
  ⟨by decide, c5_required_closure c5Defs (by decide)⟩

--
-- C1: the guess-state transition discipline of the readiness check
--

/-- The intended progress order on guess states:
None < Guessed < WaitingForLoad < Resolved. -/
def rankG : GuessState → Nat
  | GuessState.GuessState_None => 0
  | GuessState.GuessState_Guessed => 1
  | GuessState.GuessState_WaitingForLoad => 2
  | GuessState.GuessState_Resolved => 3

theorem rankG_le_three (g : GuessState) : rankG g ≤ 3 := by
  cases g <;> decide

/-- Decidable form of the Resolved invariant: every Resolved status names a
definition that is a plain function or already loaded. -/
def resolvedInvB (env : EvaluatorEnvironment) : Bool :=
  env.definitions.all fun p => p.2.references.all fun q =>
    !decide (q.2.guessState = GuessState.GuessState_Resolved) ||
      (match findDef env.definitions q.1 with
       | some found =>
         decide (found.type = ObjectType.ObjectType_Function) || found.isLoaded
       | none => false)

/-- A status is only ever set to Resolved on the loaded-compile-time path or
the known-function path, so environments produced by the evaluator satisfy
this. -/
def ResolvedInv (env : EvaluatorEnvironment) : Prop :=
  ∀ dn rn st, statusOf env dn rn = some st →
    st.guessState = GuessState.GuessState_Resolved →
    ∃ found, findDef env.definitions rn = some found ∧
      (found.type = ObjectType.ObjectType_Function ∨ found.isLoaded = true)

theorem resolvedInv_of_b (env : EvaluatorEnvironment)
    (h : resolvedInvB env = true) : ResolvedInv env := by
  intro dn rn st hst hres
  unfold statusOf findDef findStatus at hst
  obtain ⟨d, hd, hs⟩ := Option.bind_eq_some.mp hst
  have hdm : (dn, d) ∈ env.definitions := findAssoc_mem hd
  have hsm : (rn, st) ∈ d.references := findAssoc_mem hs
  have h1 := List.all_eq_true.mp (List.all_eq_true.mp h (dn, d) hdm) (rn, st) hsm
  have h2 : (match findDef env.definitions rn with
       | some found =>
         decide (found.type = ObjectType.ObjectType_Function) || found.isLoaded
       | none => false) = true := by
    simpa [hres] using h1
  cases hfd : findDef env.definitions rn with
  | none =>
    rw [hfd] at h2
    exact Bool.noConfusion h2
  | some found =>
    rw [hfd] at h2
    rcases (Bool.or_eq_true _ _).mp h2 with h3 | h3
    · exact ⟨found, rfl, Or.inl (of_decide_eq_true h3)⟩
    · exact ⟨found, rfl, Or.inr h3⟩

/-- One environment step of the readiness check: definition signatures (type,
loadedness) are untouched, every status survives with non-decreasing guess
rank, and the Resolved invariant is carried along. -/
def GoodStep (env env' : EvaluatorEnvironment) : Prop :=
  (∀ n, (findDef env'.definitions n).map (fun d => (d.type, d.isLoaded)) =
        (findDef env.definitions n).map (fun d => (d.type, d.isLoaded))) ∧
  (∀ dn rn st, statusOf env dn rn = some st →
    ∃ st', statusOf env' dn rn = some st' ∧
      rankG st.guessState ≤ rankG st'.guessState) ∧
  (ResolvedInv env → ResolvedInv env')

theorem goodStep_refl (env : EvaluatorEnvironment) : GoodStep env env :=
  ⟨fun _ => rfl, fun _ _ st h => ⟨st, h, Nat.le_refl _⟩, id⟩

theorem goodStep_trans {a b c : EvaluatorEnvironment}
    (h1 : GoodStep a b) (h2 : GoodStep b c) : GoodStep a c := by
  obtain ⟨hs1, hm1, hr1⟩ := h1
  obtain ⟨hs2, hm2, hr2⟩ := h2
  refine ⟨fun n => (hs2 n).trans (hs1 n), ?_, fun h => hr2 (hr1 h)⟩
  intro dn rn st h
  obtain ⟨st1, hst1, hle1⟩ := hm1 dn rn st h
  obtain ⟨st2, hst2, hle2⟩ := hm2 dn rn st1 hst1
  exact ⟨st2, hst2, hle1.trans hle2⟩

theorem statusOf_of_defs_eq {a b : EvaluatorEnvironment}
    (h : b.definitions = a.definitions) (dn rn : String) :
    statusOf b dn rn = statusOf a dn rn := by
  unfold statusOf
  rw [h]

theorem goodStep_of_defs_eq {a b : EvaluatorEnvironment}
    (h : b.definitions = a.definitions) : GoodStep a b := by
  refine ⟨fun n => by rw [h], ?_, ?_⟩
  · intro dn rn st hs
    exact ⟨st, by rw [statusOf_of_defs_eq h]; exact hs, Nat.le_refl _⟩
  · intro hri dn rn st hst hres
    obtain ⟨found, hfound, hgood⟩ :=
      hri dn rn st (by rw [statusOf_of_defs_eq h] at hst; exact hst) hres
    exact ⟨found, by rw [h]; exact hfound, hgood⟩

/-- Transfer the Resolved invariant along a step whose Resolved statuses all
come from Resolved statuses, with definition signatures preserved. -/
theorem resolvedInv_transfer (env env' : EvaluatorEnvironment)
    (hsig : ∀ n, (findDef env'.definitions n).map (fun d => (d.type, d.isLoaded)) =
        (findDef env.definitions n).map (fun d => (d.type, d.isLoaded)))
    (hback : ∀ dn rn st', statusOf env' dn rn = some st' →
      st'.guessState = GuessState.GuessState_Resolved →
      ∃ st, statusOf env dn rn = some st ∧
        st.guessState = GuessState.GuessState_Resolved)
    (hri : ResolvedInv env) : ResolvedInv env' := by
  intro dn rn st' hst' hres
  obtain ⟨st, hst, hstres⟩ := hback dn rn st' hst' hres
  obtain ⟨found, hfound, hgood⟩ := hri dn rn st hst hstres
  have hs := hsig rn
  rw [hfound] at hs
  cases hfd : findDef env'.definitions rn with
  | none =>
    rw [hfd] at hs
    exact Option.noConfusion hs
  | some found2 =>
    rw [hfd] at hs
    injection hs with hs
    have ht : found2.type = found.type := congrArg Prod.fst hs
    have hl : found2.isLoaded = found.isLoaded := congrArg Prod.snd hs
    refine ⟨found2, rfl, ?_⟩
    rcases hgood with hg | hg
    · exact Or.inl (ht.trans hg)
    · exact Or.inr (hl.trans hg)

/-- Updating one entry of an association list of definitions with a function
preserving type and loadedness preserves every lookup's signature. -/
theorem findAssoc_mapUpdate_sig (defs : List (String × ObjectDefinition))
    (k : String) (f : ObjectDefinition → ObjectDefinition)
    (hf : ∀ d, (f d).type = d.type ∧ (f d).isLoaded = d.isLoaded) (n : String) :
    (findAssoc (defs.map fun p => if p.1 = k then (p.1, f p.2) else p) n).map
        (fun d => (d.type, d.isLoaded)) =
      (findAssoc defs n).map (fun d => (d.type, d.isLoaded)) := by
  rw [findAssoc_update defs k n f]
  by_cases hn : n = k
  · rw [if_pos hn]
    cases findAssoc defs n with
    | none => rfl
    | some d =>
      show some ((f d).type, (f d).isLoaded) = some (d.type, d.isLoaded)
      rw [(hf d).1, (hf d).2]
  · rw [if_neg hn]

theorem findAssoc_singleton {α : Type} (k n : String) (v : α) :
    findAssoc [(k, v)] n = if k = n then some v else none := rfl

theorem statusOf_setGuessState_other (env : EvaluatorEnvironment) (dn rn : String)
    (g : GuessState) (dn' rn' : String) (h : ¬(dn' = dn ∧ rn' = rn)) :
    statusOf (setGuessState env dn rn g) dn' rn' = statusOf env dn' rn' := by
  unfold statusOf setGuessState findDef findStatus
  simp only
  rw [findAssoc_update env.definitions dn dn'
    (fun d => { d with references := d.references.map fun q =>
      if q.1 = rn then (q.1, { q.2 with guessState := g }) else q })]
  by_cases hdn : dn' = dn
  · rw [if_pos hdn]
    have hrn : ¬rn' = rn := fun hr => h ⟨hdn, hr⟩
    cases hd : findAssoc env.definitions dn' with
    | none => rfl
    | some d =>
      show findAssoc (d.references.map fun q =>
          if q.1 = rn then (q.1, { q.2 with guessState := g }) else q) rn' =
        findAssoc d.references rn'
      rw [findAssoc_update d.references rn rn' (fun st => { st with guessState := g })]
      rw [if_neg hrn]
  · rw [if_neg hdn]

/-- Backward characterization of addObjectReference on the status map: every
status after the call either existed before with the same guess state, or is
the freshly inserted status, whose guess state is None. -/
theorem statusOf_addObjectReference_back (env : EvaluatorEnvironment) (rn' : String)
    (reference : ObjectReference) (dn rn : String) (st' : ObjectReferenceStatus)
    (h : statusOf (addObjectReference env rn' reference).1 dn rn = some st') :
    (∃ st, statusOf env dn rn = some st ∧ st'.guessState = st.guessState) ∨
      st'.guessState = GuessState.GuessState_None := by
  have hdefs : (addObjectReference env rn' reference).1.definitions =
      addObjectReferenceDefs env (referenceDefinitionName reference) rn' reference := rfl
  unfold statusOf at h
  rw [hdefs] at h
  cases hfd : findDef env.definitions (referenceDefinitionName reference) with
  | none =>
    rw [addObjectReferenceDefs_none env _ rn' reference hfd] at h
    exact Or.inl ⟨st', h, rfl⟩
  | some d =>
    cases hfs : findStatus d.references rn' with
    | none =>
      rw [addObjectReferenceDefs_insert env _ rn' reference d hfd hfs] at h
      unfold insertNewStatus findDef at h
      rw [findAssoc_update env.definitions (referenceDefinitionName reference) dn
        (fun d2 => { d2 with references := d2.references ++
          [(rn', { name := rn', guessState := GuessState.GuessState_None,
                   references := [reference] })] })] at h
      by_cases hdn : dn = referenceDefinitionName reference
      · rw [if_pos hdn] at h
        cases hda : findAssoc env.definitions dn with
        | none =>
          rw [hda] at h
          exact Option.noConfusion h
        | some d0 =>
          rw [hda] at h
          have h2 : findAssoc (d0.references ++
              [(rn', ({ name := rn', guessState := GuessState.GuessState_None,
                        references := [reference] } : ObjectReferenceStatus))]) rn =
              some st' := h
          cases hf0 : findAssoc d0.references rn with
          | some stx =>
            rw [findAssoc_append_of_some _ hf0] at h2
            injection h2 with h2
            refine Or.inl ⟨stx, ?_, by rw [← h2]⟩
            unfold statusOf findDef
            rw [hda]
            exact hf0
          | none =>
            rw [findAssoc_append_of_none _ hf0, findAssoc_singleton] at h2
            by_cases hrr : rn' = rn
            · rw [if_pos hrr] at h2
              injection h2 with h2
              right
              rw [← h2]
            · rw [if_neg hrr] at h2
              exact Option.noConfusion h2
      · rw [if_neg hdn] at h
        exact Or.inl ⟨st', h, rfl⟩
    | some stOld =>
      rw [addObjectReferenceDefs_append env _ rn' reference d stOld hfd hfs] at h
      unfold appendRefToStatus findDef at h
      rw [findAssoc_update env.definitions (referenceDefinitionName reference) dn
        (fun d2 => { d2 with references := d2.references.map fun q =>
          if q.1 = rn' then (q.1, { q.2 with references := q.2.references ++ [reference] })
          else q })] at h
      by_cases hdn : dn = referenceDefinitionName reference
      · rw [if_pos hdn] at h
        cases hda : findAssoc env.definitions dn with
        | none =>
          rw [hda] at h
          exact Option.noConfusion h
        | some d0 =>
          rw [hda] at h
          have h2 : findAssoc (d0.references.map fun q =>
              if q.1 = rn' then (q.1, { q.2 with references := q.2.references ++ [reference] })
              else q) rn = some st' := h
          rw [findAssoc_update d0.references rn' rn
            (fun st => { st with references := st.references ++ [reference] })] at h2
          by_cases hrr : rn = rn'
          · rw [if_pos hrr] at h2
            cases hff : findAssoc d0.references rn with
            | none =>
              rw [hff] at h2
              exact Option.noConfusion h2
            | some stx =>
              rw [hff] at h2
              injection h2 with h2
              refine Or.inl ⟨stx, ?_, by rw [← h2]⟩
              unfold statusOf findDef
              rw [hda]
              exact hff
          · rw [if_neg hrr] at h2
            refine Or.inl ⟨st', ?_, rfl⟩
            unfold statusOf findDef
            rw [hda]
            exact h2
      · rw [if_neg hdn] at h
        exact Or.inl ⟨st', h, rfl⟩

theorem goodStep_addObjectReference (env : EvaluatorEnvironment) (rn' : String)
    (reference : ObjectReference) :
    GoodStep env (addObjectReference env rn' reference).1 := by
  have hsig : ∀ n, (findDef (addObjectReference env rn' reference).1.definitions n).map
      (fun d => (d.type, d.isLoaded)) =
      (findDef env.definitions n).map (fun d => (d.type, d.isLoaded)) := by
    intro n
    have hdefs : (addObjectReference env rn' reference).1.definitions =
        addObjectReferenceDefs env (referenceDefinitionName reference) rn' reference := rfl
    rw [hdefs]
    cases hfd : findDef env.definitions (referenceDefinitionName reference) with
    | none => rw [addObjectReferenceDefs_none env _ rn' reference hfd]
    | some d =>
      cases hfs : findStatus d.references rn' with
      | none =>
        rw [addObjectReferenceDefs_insert env _ rn' reference d hfd hfs]
        unfold insertNewStatus findDef
        exact findAssoc_mapUpdate_sig env.definitions (referenceDefinitionName reference)
          (fun d2 => { d2 with references := d2.references ++
            [(rn', { name := rn', guessState := GuessState.GuessState_None,
                     references := [reference] })] })
          (fun _ => ⟨rfl, rfl⟩) n
      | some stOld =>
        rw [addObjectReferenceDefs_append env _ rn' reference d stOld hfd hfs]
        unfold appendRefToStatus findDef
        exact findAssoc_mapUpdate_sig env.definitions (referenceDefinitionName reference)
          (fun d2 => { d2 with references := d2.references.map fun q =>
            if q.1 = rn' then (q.1, { q.2 with references := q.2.references ++ [reference] })
            else q })
          (fun _ => ⟨rfl, rfl⟩) n
  refine ⟨hsig, ?_, ?_⟩
  · intro dn rn st h
    obtain ⟨st2, h2, hg⟩ := statusOf_addObjectReference env rn' reference dn rn st h
    exact ⟨st2, h2, Nat.le_of_eq (by rw [hg])⟩
  · intro hri
    refine resolvedInv_transfer env _ hsig ?_ hri
    intro dn rn st2 hst2 hres
    rcases statusOf_addObjectReference_back env rn' reference dn rn st2 hst2 with
      ⟨st, hst, hgeq⟩ | hnone
    · exact ⟨st, hst, by rw [← hgeq]; exact hres⟩
    · rw [hnone] at hres
      exact GuessState.noConfusion hres

theorem goodStep_applyNewReferences (env : EvaluatorEnvironment)
    (refs : List (String × ObjectReference)) :
    GoodStep env (applyNewReferences env refs) := by
  induction refs generalizing env with
  | nil => exact goodStep_refl env
  | cons p rest ih =>
    exact goodStep_trans (goodStep_addObjectReference env p.1 p.2) (ih _)

theorem goodStep_runFigIntoSplice (code : ExternalCode) (env : EvaluatorEnvironment)
    (reference : ObjectReference) :
    GoodStep env (runFigIntoSplice code env reference).2 :=
  goodStep_trans
    (goodStep_applyNewReferences env
      (code.figImpl env reference.context reference.tokens reference.startIndex).2.1)
    (goodStep_of_defs_eq rfl)

theorem goodStep_figOccurrenceLoop (code : ExternalCode) (figFuel : Nat)
    (env : EvaluatorEnvironment) (dn0 rn0 : String) (i : Nat) (allOk : Bool) :
    GoodStep env (figOccurrenceLoop code figFuel env dn0 rn0 i allOk).1 := by
  induction figFuel generalizing env i allOk with
  | zero => exact goodStep_refl env
  | succ fuel ih =>
    simp only [figOccurrenceLoop]
    cases hre : (statusReferencesOf env dn0 rn0)[i]? with
    | none => exact goodStep_refl env
    | some reference =>
      exact goodStep_trans (goodStep_runFigIntoSplice code env reference) (ih _ _ _)

theorem statusOf_applyNewReferences_back (refs : List (String × ObjectReference))
    (env : EvaluatorEnvironment) (dn rn : String) (st' : ObjectReferenceStatus)
    (h : statusOf (applyNewReferences env refs) dn rn = some st') :
    (∃ st, statusOf env dn rn = some st ∧ st'.guessState = st.guessState) ∨
      st'.guessState = GuessState.GuessState_None := by
  induction refs generalizing env with
  | nil => exact Or.inl ⟨st', h, rfl⟩
  | cons p rest ih =>
    have hstep : applyNewReferences env (p :: rest) =
        applyNewReferences (addObjectReference env p.1 p.2).1 rest := rfl
    rw [hstep] at h
    rcases ih _ h with ⟨st1, hst1, hg1⟩ | hn
    · rcases statusOf_addObjectReference_back env p.1 p.2 dn rn st1 hst1 with
        ⟨st0, hst0, hg0⟩ | hn1
      · exact Or.inl ⟨st0, hst0, hg1.trans hg0⟩
      · exact Or.inr (hg1.trans hn1)
    · exact Or.inr hn

theorem statusOf_runFigIntoSplice_back (code : ExternalCode)
    (env : EvaluatorEnvironment) (reference : ObjectReference) (dn rn : String)
    (st' : ObjectReferenceStatus)
    (h : statusOf (runFigIntoSplice code env reference).2 dn rn = some st') :
    (∃ st, statusOf env dn rn = some st ∧ st'.guessState = st.guessState) ∨
      st'.guessState = GuessState.GuessState_None := by
  have h2 : statusOf (applyNewReferences env
      (code.figImpl env reference.context reference.tokens
        reference.startIndex).2.1) dn rn = some st' := h
  exact statusOf_applyNewReferences_back _ env dn rn st' h2

theorem statusOf_figOccurrenceLoop_back (code : ExternalCode) (figFuel : Nat)
    (env : EvaluatorEnvironment) (dn0 rn0 dn rn : String) (i : Nat) (allOk : Bool)
    (st' : ObjectReferenceStatus)
    (h : statusOf (figOccurrenceLoop code figFuel env dn0 rn0 i allOk).1 dn rn =
      some st') :
    (∃ st, statusOf env dn rn = some st ∧ st'.guessState = st.guessState) ∨
      st'.guessState = GuessState.GuessState_None := by
  induction figFuel generalizing env i allOk with
  | zero => exact Or.inl ⟨st', h, rfl⟩
  | succ fuel ih =>
    simp only [figOccurrenceLoop] at h
    cases hre : (statusReferencesOf env dn0 rn0)[i]? with
    | none =>
      simp only [hre] at h
      exact Or.inl ⟨st', h, rfl⟩
    | some reference =>
      simp only [hre] at h
      rcases ih _ _ _ h with ⟨st1, hst1, hg1⟩ | hn
      · rcases statusOf_runFigIntoSplice_back code env reference dn rn st1 hst1 with
          ⟨st0, hst0, hg0⟩ | hn1
        · exact Or.inl ⟨st0, hst0, hg1.trans hg0⟩
        · exact Or.inr (hg1.trans hn1)
      · exact Or.inr hn

theorem setGuessState_sig (env : EvaluatorEnvironment) (dn rn : String)
    (g : GuessState) (n : String) :
    (findDef (setGuessState env dn rn g).definitions n).map
        (fun d => (d.type, d.isLoaded)) =
      (findDef env.definitions n).map (fun d => (d.type, d.isLoaded)) := by
  unfold setGuessState findDef
  exact findAssoc_mapUpdate_sig env.definitions dn
    (fun d => { d with references := d.references.map fun q =>
      if q.1 = rn then (q.1, { q.2 with guessState := g }) else q })
    (fun _ => ⟨rfl, rfl⟩) n

theorem sig_transfer_good (env env' : EvaluatorEnvironment) (rn : String)
    (hsig : (findDef env'.definitions rn).map (fun d => (d.type, d.isLoaded)) =
      (findDef env.definitions rn).map (fun d => (d.type, d.isLoaded)))
    (found : ObjectDefinition) (hfd : findDef env.definitions rn = some found)
    (hgood : found.type = ObjectType.ObjectType_Function ∨ found.isLoaded = true) :
    ∃ found2, findDef env'.definitions rn = some found2 ∧
      (found2.type = ObjectType.ObjectType_Function ∨ found2.isLoaded = true) := by
  rw [hfd] at hsig
  cases hfd' : findDef env'.definitions rn with
  | none =>
    rw [hfd'] at hsig
    exact Option.noConfusion hsig
  | some found2 =>
    rw [hfd'] at hsig
    injection hsig with hs
    have ht : found2.type = found.type := congrArg Prod.fst hs
    have hl : found2.isLoaded = found.isLoaded := congrArg Prod.snd hs
    refine ⟨found2, rfl, ?_⟩
    rcases hgood with hg | hg
    · exact Or.inl (ht.trans hg)
    · exact Or.inr (hl.trans hg)

theorem goodStep_setGuessState_resolved (env : EvaluatorEnvironment) (dn rn : String)
    (found : ObjectDefinition) (hfd : findDef env.definitions rn = some found)
    (hgood : found.type = ObjectType.ObjectType_Function ∨ found.isLoaded = true) :
    GoodStep env (setGuessState env dn rn GuessState.GuessState_Resolved) := by
  refine ⟨setGuessState_sig env dn rn _, ?_, ?_⟩
  · intro dn' rn' st h
    by_cases hb : dn' = dn ∧ rn' = rn
    · obtain ⟨h1, h2⟩ := hb
      subst h1
      subst h2
      refine ⟨{ st with guessState := GuessState.GuessState_Resolved }, ?_, ?_⟩
      · rw [statusOf_setGuessState_self, h]
        rfl
      · exact rankG_le_three st.guessState
    · rw [statusOf_setGuessState_other env dn rn _ dn' rn' hb]
      exact ⟨st, h, Nat.le_refl _⟩
  · intro hri
    intro dn' rn' st' hst' hres
    by_cases hb : rn' = rn
    · subst hb
      exact sig_transfer_good env _ rn' (setGuessState_sig env dn rn' _ rn') found hfd hgood
    · by_cases hb2 : dn' = dn ∧ rn' = rn
      · exact absurd hb2.2 hb
      · rw [statusOf_setGuessState_other env dn rn _ dn' rn' hb2] at hst'
        obtain ⟨found0, hfound0, hgood0⟩ := hri dn' rn' st' hst' hres
        exact sig_transfer_good env _ rn' (setGuessState_sig env dn rn _ rn') found0
          hfound0 hgood0

theorem goodStep_setGuessState_waiting (env : EvaluatorEnvironment) (dn rn : String)
    (found : ObjectDefinition) (hri : ResolvedInv env)
    (hfd : findDef env.definitions rn = some found)
    (hct : isCompileTimeObject found.type = true)
    (hnl : found.isLoaded = false) :
    GoodStep env (setGuessState env dn rn GuessState.GuessState_WaitingForLoad) := by
  have hnotres : ∀ st, statusOf env dn rn = some st →
      st.guessState ≠ GuessState.GuessState_Resolved := by
    intro st hst hres
    obtain ⟨found2, hfd2, hgood⟩ := hri dn rn st hst hres
    rw [hfd] at hfd2
    injection hfd2 with hfd2
    rcases hgood with hg | hg
    · rw [← hfd2] at hg
      rw [hg] at hct
      exact absurd hct (by decide)
    · rw [← hfd2] at hg
      rw [hg] at hnl
      exact Bool.noConfusion hnl
  refine ⟨setGuessState_sig env dn rn _, ?_, ?_⟩
  · intro dn' rn' st h
    by_cases hb : dn' = dn ∧ rn' = rn
    · obtain ⟨h1, h2⟩ := hb
      subst h1
      subst h2
      refine ⟨{ st with guessState := GuessState.GuessState_WaitingForLoad }, ?_, ?_⟩
      · rw [statusOf_setGuessState_self, h]
        rfl
      · have hne := hnotres st h
        cases hgs : st.guessState with
        | GuessState_None =>
          exact (by decide : rankG GuessState.GuessState_None ≤
            rankG GuessState.GuessState_WaitingForLoad)
        | GuessState_Guessed =>
          exact (by decide : rankG GuessState.GuessState_Guessed ≤
            rankG GuessState.GuessState_WaitingForLoad)
        | GuessState_WaitingForLoad =>
          exact (by decide : rankG GuessState.GuessState_WaitingForLoad ≤
            rankG GuessState.GuessState_WaitingForLoad)
        | GuessState_Resolved => exact absurd hgs hne
    · rw [statusOf_setGuessState_other env dn rn _ dn' rn' hb]
      exact ⟨st, h, Nat.le_refl _⟩
  · intro hri2
    refine resolvedInv_transfer env _ (setGuessState_sig env dn rn _) ?_ hri2
    intro dn' rn' st' hst' hres
    by_cases hb : dn' = dn ∧ rn' = rn
    · obtain ⟨h1, h2⟩ := hb
      subst h1
      subst h2
      rw [statusOf_setGuessState_self] at hst'
      cases hso : statusOf env dn' rn' with
      | none =>
        rw [hso] at hst'
        exact Option.noConfusion hst'
      | some st0 =>
        rw [hso] at hst'
        injection hst' with hst'
        rw [← hst'] at hres
        exact GuessState.noConfusion hres
    · rw [statusOf_setGuessState_other env dn rn _ dn' rn' hb] at hst'
      exact ⟨st', hst', hres⟩

theorem goodStep_setGuessState_guessed (env : EvaluatorEnvironment) (dn rn : String)
    (hlow : ∀ st, statusOf env dn rn = some st → rankG st.guessState ≤ 1) :
    GoodStep env (setGuessState env dn rn GuessState.GuessState_Guessed) := by
  refine ⟨setGuessState_sig env dn rn _, ?_, ?_⟩
  · intro dn' rn' st h
    by_cases hb : dn' = dn ∧ rn' = rn
    · obtain ⟨h1, h2⟩ := hb
      subst h1
      subst h2
      refine ⟨{ st with guessState := GuessState.GuessState_Guessed }, ?_, ?_⟩
      · rw [statusOf_setGuessState_self, h]
        rfl
      · exact hlow st h
    · rw [statusOf_setGuessState_other env dn rn _ dn' rn' hb]
      exact ⟨st, h, Nat.le_refl _⟩
  · intro hri2
    refine resolvedInv_transfer env _ (setGuessState_sig env dn rn _) ?_ hri2
    intro dn' rn' st' hst' hres
    by_cases hb : dn' = dn ∧ rn' = rn
    · obtain ⟨h1, h2⟩ := hb
      subst h1
      subst h2
      rw [statusOf_setGuessState_self] at hst'
      cases hso : statusOf env dn' rn' with
      | none =>
        rw [hso] at hst'
        exact Option.noConfusion hst'
      | some st0 =>
        rw [hso] at hst'
        injection hst' with hst'
        rw [← hst'] at hres
        exact GuessState.noConfusion hres
    · rw [statusOf_setGuessState_other env dn rn _ dn' rn' hb] at hst'
      exact ⟨st', hst', hres⟩

theorem goodStep_checkOneStatus (code : ExternalCode) (figFuel : Nat)
    (env : EvaluatorEnvironment) (dn rn : String) (flags : CheckFlags)
    (hri : ResolvedInv env) :
    GoodStep env (checkOneStatus code figFuel env dn rn flags).1 := by
  unfold checkOneStatus
  split
  · exact goodStep_refl env
  · next referenceStatus hso =>
    split
    · next found hfd =>
      split
      · next hct =>
        split
        · next hld =>
          exact goodStep_setGuessState_resolved env dn rn found hfd (Or.inr hld)
        · next hld =>
          have hnl : found.isLoaded = false := by
            cases hl2 : found.isLoaded with
            | false => rfl
            | true => exact absurd hl2 hld
          exact goodStep_setGuessState_waiting env dn rn found hri hfd hct hnl
      · next hct =>
        split
        · next hfn =>
          have hgs1 := goodStep_figOccurrenceLoop code figFuel env dn rn 0 true
          obtain ⟨found2, hfd2, hgood2⟩ := sig_transfer_good env _ rn (hgs1.1 rn)
            found hfd (Or.inl hfn.1)
          exact goodStep_trans hgs1
            (goodStep_setGuessState_resolved _ dn rn found2 hfd2 hgood2)
        · next hfn =>
          exact goodStep_refl env
    · next hfd =>
      split
      · next hn =>
        have hgs1 := goodStep_figOccurrenceLoop code figFuel env dn rn 0 true
        refine goodStep_trans hgs1 (goodStep_setGuessState_guessed _ dn rn ?_)
        intro st1 hst1
        rcases statusOf_figOccurrenceLoop_back code figFuel env dn rn dn rn 0 true
          st1 hst1 with ⟨st0, hst0, hg0⟩ | hn1
        · rw [hso] at hst0
          injection hst0 with hst0
          rw [hg0, ← hst0, hn]
          decide
        · rw [hn1]
          decide
      · next hn =>
        split
        · next hg =>
          exact goodStep_refl env
        · next hg =>
          exact goodStep_refl env

theorem goodStep_checkFold (code : ExternalCode) (figFuel : Nat) (dn : String)
    (names : List String) (acc : EvaluatorEnvironment × CheckFlags)
    (hri : ResolvedInv acc.1) :
    GoodStep acc.1 ((names.foldl
      (fun a rn => checkOneStatus code figFuel a.1 dn rn a.2) acc)).1 := by
  induction names generalizing acc with
  | nil => exact goodStep_refl acc.1
  | cons rn rest ih =>
    simp only [List.foldl_cons]
    have h1 := goodStep_checkOneStatus code figFuel acc.1 dn rn acc.2 hri
    exact goodStep_trans h1
      (ih (checkOneStatus code figFuel acc.1 dn rn acc.2) (h1.2.2 hri))

theorem goodStep_checkRefsPass (code : ExternalCode) (figFuel : Nat)
    (env : EvaluatorEnvironment) (dn : String) (flags : CheckFlags)
    (hri : ResolvedInv env) :
    GoodStep env (checkRefsPass code figFuel env dn flags).1 := by
  unfold checkRefsPass
  exact goodStep_checkFold code figFuel dn _ (env, flags) hri

theorem goodStep_checkDefLoop (code : ExternalCode) (figFuel loopFuel : Nat)
    (env : EvaluatorEnvironment) (dn : String) (flags : CheckFlags)
    (hri : ResolvedInv env) :
    GoodStep env (checkDefLoop code figFuel loopFuel env dn flags).1 := by
  induction loopFuel generalizing env flags with
  | zero => exact goodStep_refl env
  | succ fuel ih =>
    simp only [checkDefLoop]
    by_cases hg : (checkRefsPass code figFuel env dn
        { flags with guessMaybeDirtiedReferences := false }).2.guessMaybeDirtiedReferences
        = true
    · rw [if_pos hg]
      have h1 := goodStep_checkRefsPass code figFuel env dn
        { flags with guessMaybeDirtiedReferences := false } hri
      exact goodStep_trans h1 (ih _ _ (h1.2.2 hri))
    · rw [if_neg hg]
      exact goodStep_checkRefsPass code figFuel env dn
        { flags with guessMaybeDirtiedReferences := false } hri

theorem goodStep_buildCheckFold (code : ExternalCode) (figFuel loopFuel : Nat)
    (ps : List (String × ObjectType)) (acc : CheckPhaseResult)
    (hri : ResolvedInv acc.env) :
    GoodStep acc.env ((ps.foldl (buildCheckStep code figFuel loopFuel) acc)).env := by
  induction ps generalizing acc with
  | nil => exact goodStep_refl acc.env
  | cons p rest ih =>
    simp only [List.foldl_cons]
    have h1 : GoodStep acc.env (buildCheckStep code figFuel loopFuel acc p).env := by
      unfold buildCheckStep
      exact goodStep_checkDefLoop code figFuel loopFuel acc.env p.1 {} hri
    exact goodStep_trans h1 (ih _ (h1.2.2 hri))

theorem goodStep_buildCheckPhase (code : ExternalCode) (figFuel loopFuel : Nat)
    (env : EvaluatorEnvironment) (hri : ResolvedInv env) :
    GoodStep env (buildCheckPhase code figFuel loopFuel env).env := by
  unfold buildCheckPhase
  exact goodStep_buildCheckFold code figFuel loopFuel _
    { env := env, log := [], queue := [] } hri

/-- The evaluator never changes an existing status's guess state: it only adds
occurrences and fresh statuses. -/
def StatusKeep (env env' : EvaluatorEnvironment) : Prop :=
  ∀ dn rn st, statusOf env dn rn = some st →
    ∃ st', statusOf env' dn rn = some st' ∧ st'.guessState = st.guessState

theorem statusKeep_of_defs_eq {a b : EvaluatorEnvironment}
    (h : b.definitions = a.definitions) : StatusKeep a b :=
  fun _ _ st hs => ⟨st, by rw [statusOf_of_defs_eq h]; exact hs, rfl⟩

theorem statusKeep_refl (env : EvaluatorEnvironment) : StatusKeep env env :=
  statusKeep_of_defs_eq rfl

theorem statusKeep_trans {a b c : EvaluatorEnvironment}
    (h1 : StatusKeep a b) (h2 : StatusKeep b c) : StatusKeep a c := by
  intro dn rn st h
  obtain ⟨st1, hs1, hg1⟩ := h1 dn rn st h
  obtain ⟨st2, hs2, hg2⟩ := h2 dn rn st1 hs1
  exact ⟨st2, hs2, hg2.trans hg1⟩

theorem statusKeep_applyNewReferences (env : EvaluatorEnvironment)
    (refs : List (String × ObjectReference)) :
    StatusKeep env (applyNewReferences env refs) :=
  fun dn rn st h => statusOf_applyNewReferences refs env dn rn st h

theorem statusKeep_runFigIntoSplice (code : ExternalCode) (env : EvaluatorEnvironment)
    (reference : ObjectReference) :
    StatusKeep env (runFigIntoSplice code env reference).2 :=
  fun dn rn st h => statusOf_runFigIntoSplice code env reference dn rn st h

theorem statusKeep_handleUnknownReferenceResolved (code : ExternalCode)
    (env1 : EvaluatorEnvironment) (reference : ObjectReference)
    (output1 : GeneratorOutput) (referenceStatus : ObjectReferenceStatus) :
    StatusKeep env1 (handleUnknownReferenceResolved code env1 reference output1
      referenceStatus).2.1 := by
  unfold handleUnknownReferenceResolved
  by_cases hg : referenceStatus.guessState = GuessState.GuessState_Guessed
  · rw [if_pos hg]
    by_cases hr : (runFigIntoSplice code env1 reference).1 = false
    · rw [if_pos hr]
      exact statusKeep_runFigIntoSplice code env1 reference
    · rw [if_neg hr]
      exact statusKeep_runFigIntoSplice code env1 reference
  · rw [if_neg hg]
    exact statusKeep_refl env1

theorem statusKeep_handleUnknownReference (code : ExternalCode)
    (env : EvaluatorEnvironment) (ctx : EvaluatorContext) (tokens : List Token)
    (i : Nat) (out : GeneratorOutput) (s n : Token) :
    StatusKeep env (handleUnknownReference code env ctx tokens i out s n).2.1 := by
  unfold handleUnknownReference
  have hbase : StatusKeep env (addObjectReference (spliceAllocEnv env) n.contents
      (unknownNewReference env ctx tokens i)).1 :=
    statusKeep_trans (statusKeep_of_defs_eq rfl)
      (fun dn rn st h =>
        statusOf_addObjectReference (spliceAllocEnv env) n.contents _ dn rn st h)
  cases haor : (addObjectReference (spliceAllocEnv env) n.contents
      (unknownNewReference env ctx tokens i)).2 with
  | none => exact hbase
  | some referenceStatus =>
    exact statusKeep_trans hbase
      (statusKeep_handleUnknownReferenceResolved code _ _ _ _)

theorem evaluator_statusKeep (code : ExternalCode) : ∀ fuel : Nat,
    (∀ env ctx tokens i out,
      StatusKeep env (HandleInvocation_Recursive code fuel env ctx tokens i out).2.1) ∧
    (∀ env ctx tokens i out,
      StatusKeep env (EvaluateGenerate_Recursive code fuel env ctx tokens i out).2.1) ∧
    (∀ env ctx tokens si ci delim out,
      StatusKeep env
        (EvaluateGenerateAllLoop code fuel env ctx tokens si ci delim out).2.1) := by
  intro fuel
  induction fuel with
  | zero =>
    refine ⟨fun env _ _ _ _ => statusKeep_refl env, fun env _ _ _ _ => statusKeep_refl env,
      fun env _ _ _ _ _ _ => statusKeep_refl env⟩
  | succ fuel ih =>
    obtain ⟨ihH, ihG, ihL⟩ := ih
    refine ⟨?_, ?_, ?_⟩
    · intro env ctx tokens i out
      simp only [HandleInvocation_Recursive]
      split
      · split
        · exact statusKeep_refl env
        · split
          · split
            · exact statusKeep_refl env
            · split
              · exact statusKeep_refl env
              · split
                · exact statusKeep_refl env
                · refine statusKeep_trans ?_ (ihL _ _ _ _ _ _ _)
                  exact statusKeep_of_defs_eq rfl
          · split
            · exact statusKeep_refl env
            · split
              · split
                · exact statusKeep_applyNewReferences env _
                · exact statusKeep_handleUnknownReference _ _ _ _ _ _ _ _
              · exact statusKeep_handleUnknownReference _ _ _ _ _ _ _ _
      · exact statusKeep_refl env
    · intro env ctx tokens i out
      simp only [EvaluateGenerate_Recursive]
      split
      · exact statusKeep_refl env
      · split
        · exact ihH _ _ _ _ _
        · split
          · exact statusKeep_refl env
          · split
            · exact statusKeep_refl env
            · split <;> exact statusKeep_refl env
    · intro env ctx tokens si ci delim out
      simp only [EvaluateGenerateAllLoop]
      split
      · exact statusKeep_refl env
      · split
        · exact statusKeep_refl env
        · exact statusKeep_trans (ihG _ _ _ _ _) (ihL _ _ _ _ _ _ _)

/-- C1 (counterexample environment): definition f (required, unloaded)
holds a Guessed status for name m, and m is now defined as a compile-time
macro that is not yet loaded. -/
def c1Status : ObjectReferenceStatus :=
  { name := "m", guessState := GuessState.GuessState_Guessed }

def c1Env : EvaluatorEnvironment :=
  { definitions :=
    [("f", { name := "f", type := ObjectType.ObjectType_Function, isRequired := true,
             references := [("m", c1Status)] }),
     ("m", { name := "m", type := ObjectType.ObjectType_CompileTimeMacro })] }

/-- C1 (counterexample): the readiness check performs the transition
Guessed → WaitingForLoad (Evaluator.cpp line 625 sets WaitingForLoad
unconditionally whenever the referenced compile-time definition is not yet
loaded), which is not among the five transitions the claim permits. -/
theorem c1_counterexample :
    (statusOf c1Env "f" "m").map ObjectReferenceStatus.guessState =
      some GuessState.GuessState_Guessed ∧
    (statusOf (buildCheckPhase trivialExternalCode 1 1 c1Env).env "f" "m").map
        ObjectReferenceStatus.guessState =
      some GuessState.GuessState_WaitingForLoad := by
  constructor
  · decide
  · decide

/-- C1 (amended): provided every Resolved status names a definition that is a
plain function or already loaded (true of evaluator-produced environments),
a BuildEvaluateReferences readiness pass only moves guess states upward in
the order None < Guessed < WaitingForLoad < Resolved — equivalently, the
legal transitions are the claim's five plus Guessed → WaitingForLoad (and
staying put) — and HandleInvocation_Recursive never changes an existing
status's guess state at all. -/
theorem c1_amended_transitions (code : ExternalCode) (figFuel loopFuel fuel : Nat)
    (env : EvaluatorEnvironment) (ctx : EvaluatorContext) (tokens : List Token)
    (i : Nat) (out : GeneratorOutput) (dn rn : String) (st : ObjectReferenceStatus)
    (hinv : resolvedInvB env = true) (h : statusOf env dn rn = some st) :
    (∃ st', statusOf (buildCheckPhase code figFuel loopFuel env).env dn rn = some st' ∧
      rankG st.guessState ≤ rankG st'.guessState) ∧
    (∃ st2, statusOf (HandleInvocation_Recursive code fuel env ctx tokens i out).2.1
        dn rn = some st2 ∧ st2.guessState = st.guessState) :=
  ⟨(goodStep_buildCheckPhase code figFuel loopFuel env
      (resolvedInv_of_b env hinv)).2.1 dn rn st h,
   ((evaluator_statusKeep code fuel).1 env ctx tokens i out) dn rn st h⟩

def c1Ctx : EvaluatorContext := { scope := EvaluatorScope.EvaluatorScope_Module }

theorem c1_amended_transitions_witness :
    (resolvedInvB c1Env = true ∧
      statusOf c1Env "f" "m" = some c1Status) ∧
    ((∃ st', statusOf (buildCheckPhase trivialExternalCode 1 1 c1Env).env "f" "m" =
        some st' ∧
      rankG c1Status.guessState ≤ rankG st'.guessState) ∧
    (∃ st2, statusOf (HandleInvocation_Recursive trivialExternalCode 1 c1Env c1Ctx
        [] 0 {}).2.1 "f" "m" = some st2 ∧
      st2.guessState = c1Status.guessState)) :=
  ⟨⟨by decide, by decide⟩,
   c1_amended_transitions trivialExternalCode 1 1 1 c1Env c1Ctx [] 0 {} "f" "m"
     c1Status (by decide) (by decide)⟩

end Cakelisp
